import Mathlib

/-!
logdy-core: the broadcast / replay engine of `client.go`

A shallow embedding of `src/client.go` (with the `Message` record of
`src/message.go`) and theorems about it.

Modelling conventions.

* Go slices are Lean lists; `append(s, m)` is `s ++ [m]`.
* The delivery channel `ch chan []Message` is modelled by the list of all
  batches sent to it so far, in send order.  A send never blocks in the model
  (the consumer of the channel is assumed to keep reading).
* Go `int` values that are lengths, positions or the positive batch size are
  natural numbers; slice lengths and `FLUSH_BUFFER_SIZE` are far below `2^63`,
  so `i + FLUSH_BUFFER_SIZE` cannot overflow for `i < len(c.buffer)`.
  Arguments that the caller may pass negative (`tailLen`) are integers.
* The registry `map[string]*Client` is an association list with one entry per
  key; mutation through the stored pointer is `Registry.set` of the new value.
* A Go panic (nil dereference, slice bounds out of range) and a loop that does
  not terminate are the result `none`.
* `time.Now()` is a parameter of the step that reads it; the zero `time.Time`
  is `none`.
* The goroutines (`Clients.Start`, one `startBufferFlushLoop` per client) are
  modelled by their loop bodies, run as atomic steps in any interleaving.
-/

namespace Logdy

/-! ## `message.go` -/

/-- Type `MessageOrigin` of message.go. -/
structure MessageOrigin where
  Port : String
  File : String
deriving DecidableEq, Repr

/-- Type `Message` of message.go (`BaseMessage` is embedded, so its field
`MessageType` is a field of the message; `LogType` is an `int`). -/
structure Message where
  MessageType : String
  Id : String
  Mtype : Int
  Content : String
  JsonContent : List Nat
  IsJson : Bool
  Ts : Int
  Origin : Option MessageOrigin
deriving DecidableEq, Repr

/-! ## `client.go`: package variables -/

/-- Package variable `FLUSH_BUFFER_SIZE` (its initial value; the functions
below take the batch size as a parameter, since it is a `var`). -/
def FLUSH_BUFFER_SIZE : Nat := 1000

/-- Package variable `MAX_MESSAGE_COUNT`.  No function of client.go reads it. -/
def MAX_MESSAGE_COUNT : Nat := 100000

/-- Type `CursorStatus` with its two constants `CURSOR_STOPPED` and
`CURSOR_FOLLOWING`. -/
inductive CursorStatus where
  | CURSOR_STOPPED
  | CURSOR_FOLLOWING
deriving DecidableEq, Repr

open CursorStatus

/-! ## `client.go`: `Client` -/

/-- Type `Client`.  `ch` is the history of batches sent to the channel.  The
mutex and the `done` channel carry no data; who holds the mutex during a
write is modelled on `LockedClient` below. -/
structure Client where
  id : String
  ch : List (List Message)
  buffer : List Message
  cursorStatus : CursorStatus
  cursorPosition : String
deriving DecidableEq, Repr

/-- Method `Client.handleMessage`. -/
def Client.handleMessage (c : Client) (m : Message) (force : Bool) : Client :=
  if !force && c.cursorStatus == CURSOR_STOPPED then
    c
  else
    { c with buffer := c.buffer ++ [m] }

/-- The `for` loop of `Client.flushBuffer`, from loop variable `i`, with the
channel history `ch` so far.  One unit of fuel is one iteration; `none` when
the fuel runs out before the loop condition fails. -/
def flushLoop (size : Nat) (buffer : List Message) :
    Nat → Nat → List (List Message) → Option (List (List Message))
  | 0, i, ch => if i < buffer.length then none else some ch
  | fuel + 1, i, ch =>
    if i < buffer.length then
      let stop := if i + size > buffer.length then buffer.length else i + size
      let batch := (buffer.drop i).take (stop - i)
      flushLoop size buffer fuel (i + size) (ch ++ [batch])
    else
      some ch

/-- Method `Client.flushBuffer` with `FLUSH_BUFFER_SIZE = size`.  The loop is
given `len(c.buffer)` iterations of fuel, which is enough for every
`size >= 1`; with `size = 0` the Go loop does not terminate. -/
def Client.flushBuffer (size : Nat) (c : Client) : Option Client :=
  if c.buffer.length = 0 then
    some c
  else
    (flushLoop size c.buffer c.buffer.length 0 c.ch).map (fun ch => { c with ch := ch })

/-- Method `Client.clearBuffer`. -/
def Client.clearBuffer (c : Client) : Client :=
  { c with buffer := [] }

/-- One iteration of the loop of `Client.startBufferFlushLoop`, `default`
branch of the `select` (no close signal pending). -/
def Client.startBufferFlushLoop_tick (size : Nat) (c : Client) : Option Client :=
  if c.buffer.length = 0 then
    some c
  else
    match c.buffer.getLast? with
    | none => none
    | some last =>
      let c1 := { c with cursorPosition := last.Id }
      (c1.flushBuffer size).map Client.clearBuffer

/-- Function `NewClient`; `id` stands for the result of `RandStringRunes(6)`. -/
def NewClient (id : String) : Client :=
  { id := id, ch := [], buffer := [], cursorStatus := CURSOR_STOPPED, cursorPosition := "" }

/-! ## `client.go`: `Clients` -/

/-- Type `Stats`; a `time.Time` is a clock reading, `none` the zero time. -/
structure Stats where
  Count : Int
  FirstMessageAt : Option Nat
  LastMessageAt : Option Nat
deriving DecidableEq, Repr

/-- The registry `map[string]*Client`: one entry per key. -/
abbrev Registry := List (String × Client)

/-- Map read `clients[id]`; `none` is the nil pointer of a missing key. -/
def Registry.get : Registry → String → Option Client
  | [], _ => none
  | (k, v) :: rest, id => if k = id then some v else Registry.get rest id

/-- Map write `clients[id] = cl`, also the effect of a mutation through the
pointer stored under `id`. -/
def Registry.set : Registry → String → Client → Registry
  | [], id, cl => [(id, cl)]
  | (k, v) :: rest, id, cl =>
    if k = id then (k, cl) :: rest else (k, v) :: Registry.set rest id cl

/-- Type `Clients`.  The receive end `mainChan` is the argument of the steps
that read it. -/
structure Clients where
  started : Bool
  clients : Registry
  buffer : List Message
  currentlyConnected : Int
  stats : Stats
deriving DecidableEq, Repr

/-- Function `NewClients` (the state it builds; `go cls.Start()` is modelled
by `Clients.Start`). -/
def NewClients : Clients :=
  { started := false, clients := [], buffer := [], currentlyConnected := 0,
    stats := { Count := 0, FirstMessageAt := none, LastMessageAt := none } }

/-- One receive `msg := <-c.mainChan` together with the two clock readings of
the iteration that handles it. -/
structure Arrival where
  msg : Message
  firstNow : Nat
  lastNow : Nat
deriving DecidableEq, Repr

/-- One iteration of the `for` loop of `Clients.Start`. -/
def Clients.Start_iter (c : Clients) (a : Arrival) : Clients :=
  let first := if c.stats.FirstMessageAt = none then some a.firstNow else c.stats.FirstMessageAt
  { c with
    buffer := c.buffer ++ [a.msg]
    stats := { Count := c.stats.Count + 1, FirstMessageAt := first, LastMessageAt := some a.lastNow }
    clients := c.clients.map (fun kv => (kv.1, kv.2.handleMessage a.msg false)) }

/-- Method `Clients.Start`, run on the messages `arrivals` received from
`mainChan` so far. -/
def Clients.Start (c : Clients) (arrivals : List Arrival) : Clients :=
  if c.started then c else arrivals.foldl Clients.Start_iter { c with started := true }

/-- Method `Clients.Join`; `newId` is the id drawn by `NewClient`.  Returns
the new state and the client returned by the Go method. -/
def Clients.Join (c : Clients) (newId : String) (tailLen : Int) : Option (Clients × Client) :=
  let cl := NewClient newId
  let idx : Int := if (c.buffer.length : Int) > tailLen then (c.buffer.length : Int) - tailLen else 0
  if idx > (c.buffer.length : Int) then
    none
  else
    let cl1 := (c.buffer.drop idx.toNat).foldl (fun acc msg => acc.handleMessage msg true) cl
    let cl2 := { cl1 with cursorStatus := CURSOR_FOLLOWING }
    some ({ c with clients := Registry.set c.clients cl.id cl2
                   currentlyConnected := c.currentlyConnected + 1 }, cl2)

/-- The `for` loop of `Clients.ResumeFollowing` over the rest of the log, with
the loop variable `seen`. -/
def ResumeFollowing_loop : List Message → Bool → Client → Client
  | [], _, cl => cl
  | msg :: rest, seen, cl =>
    if msg.Id = cl.cursorPosition then
      ResumeFollowing_loop rest true cl
    else if !seen then
      ResumeFollowing_loop rest seen cl
    else
      ResumeFollowing_loop rest seen (cl.handleMessage msg true)

/-- Method `Clients.ResumeFollowing`; a missing `clientId` is a nil
dereference. -/
def Clients.ResumeFollowing (size : Nat) (c : Clients) (clientId : String) (sinceCursor : Bool) :
    Option Clients :=
  match Registry.get c.clients clientId with
  | none => none
  | some cl =>
    let cl1 := if sinceCursor then ResumeFollowing_loop c.buffer false cl else cl
    match cl1.flushBuffer size with
    | none => none
    | some cl2 =>
      some { c with clients := Registry.set c.clients clientId { cl2 with cursorStatus := CURSOR_FOLLOWING } }

/-- Method `Client.waitForBufferDrain`.  The Go loop polls until the pending
buffer is empty; the only code that empties it is the flush loop of the same
client, which runs concurrently.  The model runs the iteration of that flush
loop the wait is waiting for; `none` when the buffer is still not empty after
it (the wait does not end). -/
def Client.waitForBufferDrain (size : Nat) (c : Client) : Option Client :=
  if c.buffer.length > 0 then
    match c.startBufferFlushLoop_tick size with
    | none => none
    | some c1 => if c1.buffer.length > 0 then none else some c1
  else
    some c

/-- Method `Clients.PauseFollowing`; a missing `clientId` is a nil
dereference. -/
def Clients.PauseFollowing (size : Nat) (c : Clients) (clientId : String) : Option Clients :=
  match Registry.get c.clients clientId with
  | none => none
  | some cl =>
    match ({ cl with cursorStatus := CURSOR_STOPPED }).waitForBufferDrain size with
    | none => none
    | some cl1 => some { c with clients := Registry.set c.clients clientId cl1 }

/-- The `for` loop of `Clients.Load` over the rest of the log, with the range
index `i` and the loop variables `seen` and `sent`. -/
def Load_loop (start count : Int) (includeStart : Bool) :
    List Message → Nat → Bool → Int → Client → Client
  | [], _, _, _, cl => cl
  | msg :: rest, i, seen, sent, cl =>
    let seen1 := if (i : Int) + 1 = start then true else seen
    if (i : Int) + 1 = start ∧ includeStart = false then
      Load_loop start count includeStart rest (i + 1) seen1 sent cl
    else if !seen1 then
      Load_loop start count includeStart rest (i + 1) seen1 sent cl
    else
      let sent1 := sent + 1
      let cl1 := cl.handleMessage msg true
      if count > 0 ∧ sent1 ≥ count then
        cl1
      else
        Load_loop start count includeStart rest (i + 1) seen1 sent1 cl1

/-- Method `Clients.Load`. -/
def Clients.Load (size : Nat) (c : Clients) (clientId : String) (start count : Int)
    (includeStart : Bool) : Option Clients :=
  match c.PauseFollowing size clientId with
  | none => none
  | some c1 =>
    match Registry.get c1.clients clientId with
    | none => none
    | some cl =>
      match cl.waitForBufferDrain size with
      | none => none
      | some cl1 =>
        let cl2 := Load_loop start count includeStart c1.buffer 0 false 0 cl1
        match cl2.flushBuffer size with
        | none => none
        | some cl3 => some { c1 with clients := Registry.set c1.clients clientId cl3 }

/-- The `for` loop of `Clients.PeekLog` over the rest of `idxs`, with the
result `msgs` so far; `none` is the index-out-of-range panic of
`c.buffer[idx]`. -/
def PeekLog_loop (buffer : List Message) : List Int → List Message → Option (List Message)
  | [], msgs => some msgs
  | idx :: rest, msgs =>
    if (buffer.length : Int) - 1 < idx then
      PeekLog_loop buffer rest msgs
    else if idx < 0 then
      none
    else
      match buffer[idx.toNat]? with
      | none => none
      | some m => PeekLog_loop buffer rest (msgs ++ [m])

/-- Method `Clients.PeekLog`: the state after the call and the returned
messages. -/
def Clients.PeekLog (c : Clients) (idxs : List Int) : Option (Clients × List Message) :=
  (PeekLog_loop c.buffer idxs []).map (fun msgs => (c, msgs))

/-- Map removal `delete(clients, id)`. -/
def Registry.delete : Registry → String → Registry
  | [], _ => []
  | (k, v) :: rest, id =>
    if k = id then Registry.delete rest id else (k, v) :: Registry.delete rest id

/-- Method `Clients.Close`.  The done signal makes the flush loop of the
removed client quit; that client is no longer part of the state. -/
def Clients.Close (c : Clients) (id : String) : Clients :=
  match Registry.get c.clients id with
  | none => c
  | some _ =>
    { c with clients := Registry.delete c.clients id
             currentlyConnected := c.currentlyConnected - 1 }

/-- A call of `Join` (with the id it draws and a non-negative tail length) or
of `Close`. -/
inductive AdminOp where
  | join (newId : String) (tailLen : Nat)
  | close (id : String)
deriving DecidableEq, Repr

/-- Effect of one `Join` or `Close` call on the state. -/
def Clients.admin (c : Clients) : AdminOp → Option Clients
  | AdminOp.join newId tailLen => (c.Join newId (tailLen : Int)).map Prod.fst
  | AdminOp.close id => some (c.Close id)

/-- Effect of a sequence of `Join` and `Close` calls, first to last. -/
def Clients.runAdmin : Clients → List AdminOp → Option Clients
  | c, [] => some c
  | c, op :: rest =>
    match c.admin op with
    | none => none
    | some c1 => Clients.runAdmin c1 rest

/-- Every `Join` of the sequence draws an id that is not in the registry at
the time of the call. -/
def freshJoins : Clients → List AdminOp → Bool
  | _, [] => true
  | c, op :: rest =>
    (match op with
      | AdminOp.join newId _ => (Registry.get c.clients newId).isNone
      | AdminOp.close _ => true) &&
    (match c.admin op with
      | none => false
      | some c1 => freshJoins c1 rest)

/-! ## Interleavings of the two loops -/

/-- A step of the running system: an iteration of `Clients.Start`, or an
iteration of the flush loop of the client registered under an id. -/
inductive Step where
  | ingest (a : Arrival)
  | tick (clientId : String)
deriving DecidableEq, Repr

/-- Flush-loop iteration of the client registered under `clientId` (no such
loop acts on the registry when the id is not registered). -/
def Clients.tick (size : Nat) (c : Clients) (clientId : String) : Option Clients :=
  match Registry.get c.clients clientId with
  | none => some c
  | some cl =>
    match cl.startBufferFlushLoop_tick size with
    | none => none
    | some cl1 => some { c with clients := Registry.set c.clients clientId cl1 }

/-- Effect of one step. -/
def Clients.step (size : Nat) (c : Clients) : Step → Option Clients
  | Step.ingest a => some (c.Start_iter a)
  | Step.tick clientId => c.tick size clientId

/-- Effect of a sequence of steps, first to last. -/
def Clients.run (size : Nat) : Clients → List Step → Option Clients
  | c, [] => some c
  | c, s :: rest =>
    match c.step size s with
    | none => none
    | some c1 => Clients.run size c1 rest

/-- The messages ingested by a sequence of steps, in order. -/
def ingested : List Step → List Message
  | [] => []
  | Step.ingest a :: rest => a.msg :: ingested rest
  | Step.tick _ :: rest => ingested rest

/-- A message whose only distinguishing field is its id. -/
def mkMsg (id : String) : Message :=
  { MessageType := "", Id := id, Mtype := 1, Content := "", JsonContent := [], IsJson := false,
    Ts := 0, Origin := none }

/-- An arrival of `mkMsg id` at clock reading `1`. -/
def mkArrival (id : String) : Arrival :=
  { msg := mkMsg id, firstNow := 1, lastNow := 1 }

/-- A log of three messages and a stopped client `a` with an empty pending
buffer that was delivered the first of them (cursor `1`). -/
def pausedState : Clients :=
  { started := true,
    clients := [("a", { id := "a", ch := [[mkMsg "1"]], buffer := [],
                        cursorStatus := CURSOR_STOPPED, cursorPosition := "1" })],
    buffer := [mkMsg "1", mkMsg "2", mkMsg "3"], currentlyConnected := 1,
    stats := { Count := 3, FirstMessageAt := some 1, LastMessageAt := some 1 } }

/-- A log of one message and a stopped client `a` with an empty pending
buffer that was delivered it (cursor `1`, the id of the last log event). -/
def caughtUpState : Clients :=
  { started := true,
    clients := [("a", { id := "a", ch := [[mkMsg "1"]], buffer := [],
                        cursorStatus := CURSOR_STOPPED, cursorPosition := "1" })],
    buffer := [mkMsg "1"], currentlyConnected := 1,
    stats := { Count := 1, FirstMessageAt := some 1, LastMessageAt := some 1 } }

/-- A log of two messages and a stopped client `a` that was never delivered
anything: its cursor is the empty initial cursor. -/
def freshCursorState : Clients :=
  { started := true,
    clients := [("a", { id := "a", ch := [], buffer := [],
                        cursorStatus := CURSOR_STOPPED, cursorPosition := "" })],
    buffer := [mkMsg "1", mkMsg "2"], currentlyConnected := 1,
    stats := { Count := 2, FirstMessageAt := some 1, LastMessageAt := some 1 } }

/-- A log of three messages and a stopped client `a` with an empty pending
buffer that was delivered all three (cursor `3`, the id of the last log
event). -/
def deliveredState : Clients :=
  { started := true,
    clients := [("a", { id := "a", ch := [[mkMsg "1", mkMsg "2", mkMsg "3"]], buffer := [],
                        cursorStatus := CURSOR_STOPPED, cursorPosition := "3" })],
    buffer := [mkMsg "1", mkMsg "2", mkMsg "3"], currentlyConnected := 1,
    stats := { Count := 3, FirstMessageAt := some 1, LastMessageAt := some 1 } }

/-- A log of the ten messages with ids `1` to `10` and a client `a` in
`Following` mode with an empty pending buffer that was delivered nothing. -/
def tenState : Clients :=
  { started := true,
    clients := [("a", { id := "a", ch := [], buffer := [],
                        cursorStatus := CURSOR_FOLLOWING, cursorPosition := "" })],
    buffer := [mkMsg "1", mkMsg "2", mkMsg "3", mkMsg "4", mkMsg "5", mkMsg "6", mkMsg "7",
      mkMsg "8", mkMsg "9", mkMsg "10"],
    currentlyConnected := 1,
    stats := { Count := 10, FirstMessageAt := some 1, LastMessageAt := some 1 } }

/-- A client in `Following` mode whose pending buffer holds the messages with
ids `1`, `2`, `3`. -/
def sampleClient : Client :=
  { id := "a", ch := [], buffer := [mkMsg "1", mkMsg "2", mkMsg "3"],
    cursorStatus := CURSOR_FOLLOWING, cursorPosition := "" }

/-! ## The mutex `bufferOpMu` -/

/-- The three fields of `Client` that the mutex `bufferOpMu` is there to
protect. -/
inductive Field where
  | buffer
  | cursorPosition
  | cursorStatus
deriving DecidableEq, Repr

/-- A `Client` together with its mutex: `bufferOpMu` is true while a goroutine
holds it.  `unlockedWrites` is a ghost record of the writes to one of the
three fields that were made while the mutex was not held, in order. -/
structure LockedClient where
  client : Client
  bufferOpMu : Bool
  unlockedWrites : List Field
deriving DecidableEq, Repr

/-- Call `bufferOpMu.Lock()` (the mutex is free when the caller reaches
it). -/
def LockedClient.Lock (lc : LockedClient) : LockedClient :=
  { lc with bufferOpMu := true }

/-- Call `bufferOpMu.Unlock()`. -/
def LockedClient.Unlock (lc : LockedClient) : LockedClient :=
  { lc with bufferOpMu := false }

/-- An assignment to the field `fld` with effect `f` on the client; it is
recorded when the mutex is not held. -/
def LockedClient.write (lc : LockedClient) (fld : Field) (f : Client → Client) : LockedClient :=
  { lc with
    client := f lc.client
    unlockedWrites := if lc.bufferOpMu then lc.unlockedWrites else lc.unlockedWrites ++ [fld] }

/-- Method `Client.handleMessage` with the mutex: the `append` is a write of
`buffer`; the discarding branch writes nothing. -/
def LockedClient.handleMessage (lc : LockedClient) (m : Message) (force : Bool) : LockedClient :=
  if !force && lc.client.cursorStatus == CURSOR_STOPPED then
    lc
  else
    lc.write Field.buffer (fun c => { c with buffer := c.buffer ++ [m] })

/-- Method `Client.flushBuffer` with the mutex: it sends to the channel and
writes none of the three fields. -/
def LockedClient.flushBuffer (size : Nat) (lc : LockedClient) : Option LockedClient :=
  (lc.client.flushBuffer size).map (fun c => { lc with client := c })

/-- Method `Client.clearBuffer` with the mutex: a write of `buffer`. -/
def LockedClient.clearBuffer (lc : LockedClient) : LockedClient :=
  lc.write Field.buffer Client.clearBuffer

/-- One iteration of the loop of `Client.startBufferFlushLoop` with the
mutex, statement by statement: the assignment to `cursorPosition`, then
`Lock`, `flushBuffer`, `clearBuffer`, `Unlock`. -/
def LockedClient.startBufferFlushLoop_tick (size : Nat) (lc : LockedClient) :
    Option LockedClient :=
  if lc.client.buffer.length = 0 then
    some lc
  else
    match lc.client.buffer.getLast? with
    | none => none
    | some last =>
      let lc1 := lc.write Field.cursorPosition (fun c => { c with cursorPosition := last.Id })
      let lc2 := lc1.Lock
      match lc2.flushBuffer size with
      | none => none
      | some lc3 => some (lc3.clearBuffer).Unlock

/-- Method `Client.waitForBufferDrain` with the mutex (the wait itself writes
nothing; the flush loop it waits for runs its iteration). -/
def LockedClient.waitForBufferDrain (size : Nat) (lc : LockedClient) : Option LockedClient :=
  if lc.client.buffer.length > 0 then
    match lc.startBufferFlushLoop_tick size with
    | none => none
    | some lc1 => if lc1.client.buffer.length > 0 then none else some lc1
  else
    some lc

/-- Method `Clients.PauseFollowing` on the client it names, with the mutex:
the assignment to `cursorStatus`, then the wait. -/
def LockedClient.PauseFollowing (size : Nat) (lc : LockedClient) : Option LockedClient :=
  (lc.write Field.cursorStatus
    (fun c => { c with cursorStatus := CURSOR_STOPPED })).waitForBufferDrain size

/-- The body of the fan-out loop of `Clients.Start` for one client, with the
mutex: `Lock`, `handleMessage(msg, false)`, `Unlock`. -/
def LockedClient.Start_fanout (lc : LockedClient) (msg : Message) : LockedClient :=
  ((lc.Lock).handleMessage msg false).Unlock

/-- Method `Clients.Join` on the client it creates, with the mutex; `tail` is
the slice `c.buffer[idx:]`.  The forced enqueues and the assignment to
`cursorStatus` come after the client is registered, and none takes the
mutex. -/
def LockedClient.Join (newId : String) (tail : List Message) : LockedClient :=
  let lc : LockedClient := { client := NewClient newId, bufferOpMu := false, unlockedWrites := [] }
  let lc1 := tail.foldl (fun acc msg => acc.handleMessage msg true) lc
  lc1.write Field.cursorStatus (fun c => { c with cursorStatus := CURSOR_FOLLOWING })

/-- The `for` loop of `Clients.ResumeFollowing` with the mutex. -/
def LockedClient.ResumeFollowing_loop : List Message → Bool → LockedClient → LockedClient
  | [], _, lc => lc
  | msg :: rest, seen, lc =>
    if msg.Id = lc.client.cursorPosition then
      LockedClient.ResumeFollowing_loop rest true lc
    else if !seen then
      LockedClient.ResumeFollowing_loop rest seen lc
    else
      LockedClient.ResumeFollowing_loop rest seen (lc.handleMessage msg true)

/-- Method `Clients.ResumeFollowing` on the client it names, with the mutex:
`Lock`, the replay, `flushBuffer`, the assignment to `cursorStatus`,
`Unlock`; `log` is `c.buffer`. -/
def LockedClient.ResumeFollowing (size : Nat) (log : List Message) (sinceCursor : Bool)
    (lc : LockedClient) : Option LockedClient :=
  let lc1 := lc.Lock
  let lc2 := if sinceCursor then LockedClient.ResumeFollowing_loop log false lc1 else lc1
  match lc2.flushBuffer size with
  | none => none
  | some lc3 =>
    some (lc3.write Field.cursorStatus
      (fun c => { c with cursorStatus := CURSOR_FOLLOWING })).Unlock

end Logdy

namespace Logdy

open CursorStatus

/-! ## Lemmas: the flush loop -/

theorem flushLoop_batch_length (size : Nat) (buffer : List Message) (i : Nat)
    (hi : i < buffer.length) :
    ((buffer.drop i).take
      ((if i + size > buffer.length then buffer.length else i + size) - i)).length
      = min size (buffer.length - i) := by
  rw [List.length_take, List.length_drop]
  split <;> omega

theorem flushLoop_batch_append (size : Nat) (buffer : List Message) (i : Nat) :
    (buffer.drop i).take
      ((if i + size > buffer.length then buffer.length else i + size) - i)
      ++ buffer.drop (i + size) = buffer.drop i := by
  have h : buffer.drop (i + size) = (buffer.drop i).drop size := by
    rw [List.drop_drop]
  split
  · rename_i hgt
    have h1 : buffer.drop (i + size) = [] := List.drop_of_length_le (by omega)
    rw [h1, List.append_nil]
    exact List.take_of_length_le (by rw [List.length_drop])
  · rw [h, Nat.add_sub_cancel_left, List.take_append_drop]

/-- What the loop of `flushBuffer` sends, for a positive batch size and enough
fuel: batches `bs` appended to the channel history. -/
theorem flushLoop_spec (size : Nat) (hsize : 1 ≤ size) (buffer : List Message) :
    ∀ (fuel i : Nat) (ch : List (List Message)), buffer.length ≤ i + fuel →
      ∃ bs, flushLoop size buffer fuel i ch = some (ch ++ bs) ∧
        bs.flatten = buffer.drop i ∧
        (∀ b ∈ bs, 1 ≤ b.length ∧ b.length ≤ size) ∧
        (∀ b ∈ bs.dropLast, b.length = size) ∧
        (bs = [] ↔ buffer.length ≤ i) := by
  intro fuel
  induction fuel with
  | zero =>
    intro i ch h
    refine ⟨[], ?_, ?_, ?_, ?_, ?_⟩
    · simp only [flushLoop, List.append_nil]
      rw [if_neg (by omega)]
    · rw [List.drop_of_length_le (by omega)]; rfl
    · intro b hb; cases hb
    · intro b hb; cases hb
    · constructor
      · intro _; omega
      · intro _; rfl
  | succ fuel ih =>
    intro i ch h
    by_cases hi : i < buffer.length
    · obtain ⟨bs, hrun, hflat, hlen, hfull, hnil⟩ :=
        ih (i + size) (ch ++ [(buffer.drop i).take
          ((if i + size > buffer.length then buffer.length else i + size) - i)]) (by omega)
      have hb := flushLoop_batch_length size buffer i hi
      refine ⟨(buffer.drop i).take
          ((if i + size > buffer.length then buffer.length else i + size) - i) :: bs,
        ?_, ?_, ?_, ?_, ?_⟩
      · simp only [flushLoop]
        rw [if_pos hi, hrun, List.append_assoc, List.singleton_append]
      · rw [List.flatten_cons, hflat]
        exact flushLoop_batch_append size buffer i
      · intro b hmem
        rcases List.mem_cons.mp hmem with rfl | hmem
        · rw [hb]; omega
        · exact hlen b hmem
      · intro b hmem
        cases bs with
        | nil => simp at hmem
        | cons b1 bs1 =>
          rw [List.dropLast_cons₂] at hmem
          rcases List.mem_cons.mp hmem with rfl | hmem
          · have hne : ¬ buffer.length ≤ i + size := fun hle => by
              have := hnil.mpr hle
              cases this
            rw [hb]; omega
          · exact hfull b hmem
      · constructor
        · intro hcontra; cases hcontra
        · intro hle; omega
    · refine ⟨[], ?_, ?_, ?_, ?_, ?_⟩
      · simp only [flushLoop, List.append_nil]
        rw [if_neg hi]
      · rw [List.drop_of_length_le (by omega)]; rfl
      · intro b hb1; cases hb1
      · intro b hb1; cases hb1
      · constructor
        · intro _; omega
        · intro _; rfl

/-- What `flushBuffer` does for a positive batch size: it returns, and the
client differs only in the channel, which got the batches `bs`. -/
theorem flushBuffer_spec (size : Nat) (hsize : 1 ≤ size) (c : Client) :
    ∃ bs, c.flushBuffer size = some { c with ch := c.ch ++ bs } ∧
      bs.flatten = c.buffer ∧
      (∀ b ∈ bs, 1 ≤ b.length ∧ b.length ≤ size) ∧
      (∀ b ∈ bs.dropLast, b.length = size) ∧
      (c.buffer = [] → bs = []) := by
  by_cases hlen : c.buffer.length = 0
  · refine ⟨[], ?_, ?_, ?_, ?_, ?_⟩
    · simp only [Client.flushBuffer]
      rw [if_pos hlen, List.append_nil]
    · exact (List.length_eq_zero.mp hlen).symm
    · intro b hb; cases hb
    · intro b hb; cases hb
    · intro _; rfl
  · obtain ⟨bs, hrun, hflat, hlen1, hfull, hnil⟩ :=
      flushLoop_spec size hsize c.buffer c.buffer.length 0 c.ch (by omega)
    refine ⟨bs, ?_, ?_, hlen1, hfull, ?_⟩
    · simp only [Client.flushBuffer]
      rw [if_neg hlen, hrun]
      rfl
    · rw [hflat]; rfl
    · intro hempty
      exact absurd (by rw [hempty]; rfl) hlen

end Logdy

namespace Logdy

open CursorStatus

/-! ## The event log (`Clients.Start`) -/

theorem Start_iter_foldl_buffer (arrivals : List Arrival) :
    ∀ c : Clients, (arrivals.foldl Clients.Start_iter c).buffer
      = c.buffer ++ arrivals.map Arrival.msg := by
  induction arrivals with
  | nil => intro c; simp
  | cons a rest ih =>
    intro c
    rw [List.foldl_cons, ih, List.map_cons]
    simp [Clients.Start_iter]

/-- C1 (evaluation of the code): `Clients.Start` only appends to the log.
Started from `NewClients` and fed `MAX_MESSAGE_COUNT + 1` messages, the log
holds all of them, so its length exceeds `MAX_MESSAGE_COUNT`: no event is
evicted. -/
theorem Start_log_exceeds_MAX_MESSAGE_COUNT (a : Arrival) :
    (NewClients.Start (List.replicate (MAX_MESSAGE_COUNT + 1) a)).buffer
        = List.replicate (MAX_MESSAGE_COUNT + 1) a.msg ∧
      MAX_MESSAGE_COUNT
        < (NewClients.Start (List.replicate (MAX_MESSAGE_COUNT + 1) a)).buffer.length := by
  have h : (NewClients.Start (List.replicate (MAX_MESSAGE_COUNT + 1) a)).buffer
      = List.replicate (MAX_MESSAGE_COUNT + 1) a.msg := by
    unfold Clients.Start
    rw [if_neg (by simp [NewClients]), Start_iter_foldl_buffer, List.map_replicate]
    rfl
  refine ⟨h, ?_⟩
  rw [h, List.length_replicate]
  exact Nat.lt_succ_self _

/-! ## `Client.handleMessage` and `Client.flushBuffer` -/

/-- C2: `handleMessage m force` leaves the pending buffer as it is when the
client is stopped and `force` is false, and otherwise appends `m` at its tail;
the cursor status, the cursor position, the id and the channel are unchanged. -/
theorem handleMessage_effect (c : Client) (m : Message) (force : Bool) :
    (c.handleMessage m force).buffer
        = (if c.cursorStatus = CURSOR_STOPPED ∧ force = false then c.buffer
           else c.buffer ++ [m]) ∧
      (c.handleMessage m force).cursorStatus = c.cursorStatus ∧
      (c.handleMessage m force).cursorPosition = c.cursorPosition ∧
      (c.handleMessage m force).id = c.id ∧
      (c.handleMessage m force).ch = c.ch := by
  unfold Client.handleMessage
  cases force <;> cases hst : c.cursorStatus <;> simp [hst]

/-- C3: for a batch size of at least one, `flushBuffer` returns and every
batch it sends has between one and `size` messages, all but possibly the last
exactly `size`. -/
theorem flushBuffer_batch_bound (size : Nat) (hsize : 1 ≤ size) (c : Client) :
    ∃ bs, c.flushBuffer size = some { c with ch := c.ch ++ bs } ∧
      (∀ b ∈ bs, 1 ≤ b.length ∧ b.length ≤ size) ∧
      (∀ b ∈ bs.dropLast, b.length = size) := by
  obtain ⟨bs, hrun, _, hlen, hfull, _⟩ := flushBuffer_spec size hsize c
  exact ⟨bs, hrun, hlen, hfull⟩

theorem flushBuffer_batch_bound_witness :
    1 ≤ 2 ∧ ∃ bs, sampleClient.flushBuffer 2 = some { sampleClient with ch := sampleClient.ch ++ bs } ∧
      (∀ b ∈ bs, 1 ≤ b.length ∧ b.length ≤ 2) ∧
      (∀ b ∈ bs.dropLast, b.length = 2) :=
  ⟨by decide, flushBuffer_batch_bound 2 (by decide) sampleClient⟩

/-- C4: for a batch size of at least one, the batches `flushBuffer` sends,
concatenated in send order, are the pending buffer; nothing is sent when the
buffer is empty. -/
theorem flushBuffer_sends_buffer (size : Nat) (hsize : 1 ≤ size) (c : Client) :
    ∃ bs, c.flushBuffer size = some { c with ch := c.ch ++ bs } ∧
      bs.flatten = c.buffer ∧
      (c.buffer = [] → bs = []) := by
  obtain ⟨bs, hrun, hflat, _, _, hnil⟩ := flushBuffer_spec size hsize c
  exact ⟨bs, hrun, hflat, hnil⟩

theorem flushBuffer_sends_buffer_witness :
    1 ≤ 2 ∧ ∃ bs, sampleClient.flushBuffer 2 = some { sampleClient with ch := sampleClient.ch ++ bs } ∧
      bs.flatten = sampleClient.buffer ∧
      (sampleClient.buffer = [] → bs = []) :=
  ⟨by decide, flushBuffer_sends_buffer 2 (by decide) sampleClient⟩

end Logdy

namespace Logdy

open CursorStatus

/-! ## Lemmas: the registry -/

theorem Registry.get_set_same (r : Registry) (id : String) (cl : Client) :
    Registry.get (Registry.set r id cl) id = some cl := by
  induction r with
  | nil => simp [Registry.set, Registry.get]
  | cons kv rest ih =>
    obtain ⟨k, v⟩ := kv
    by_cases hk : k = id
    · simp [Registry.set, Registry.get, hk]
    · simp [Registry.set, Registry.get, hk, ih]

theorem Registry.get_set_other (r : Registry) (id other : String) (cl : Client)
    (hne : other ≠ id) :
    Registry.get (Registry.set r id cl) other = Registry.get r other := by
  induction r with
  | nil =>
    simp only [Registry.set, Registry.get]
    rw [if_neg (fun h => hne h.symm)]
  | cons kv rest ih =>
    obtain ⟨k, v⟩ := kv
    by_cases hk : k = id
    · subst hk
      simp only [Registry.set, Registry.get, if_true]
      rw [if_neg (fun h => hne h.symm), if_neg (fun h => hne h.symm)]
    · simp only [Registry.set, Registry.get, if_neg hk]
      by_cases hko : k = other
      · simp [hko]
      · simp [hko, ih]

theorem Registry.get_map (r : Registry) (f : Client → Client) (id : String) :
    Registry.get (r.map (fun kv => (kv.1, f kv.2))) id = (Registry.get r id).map f := by
  induction r with
  | nil => rfl
  | cons kv rest ih =>
    obtain ⟨k, v⟩ := kv
    by_cases hk : k = id
    · simp [Registry.get, hk]
    · simp only [List.map_cons, Registry.get, if_neg hk]
      exact ih

/-! ## Lemmas: forced enqueue, the flush tick -/

theorem foldl_handleMessage_force (msgs : List Message) :
    ∀ cl : Client, msgs.foldl (fun acc msg => acc.handleMessage msg true) cl
      = { cl with buffer := cl.buffer ++ msgs } := by
  induction msgs with
  | nil => intro cl; simp
  | cons m rest ih =>
    intro cl
    rw [List.foldl_cons, ih]
    simp [Client.handleMessage]

/-- A flush tick with a positive batch size returns; it empties the pending
buffer, appends to the channel batches whose concatenation is the old buffer,
sets the cursor to the id of the last pending message, and changes neither
the id nor the cursor status. -/
theorem startBufferFlushLoop_tick_spec (size : Nat) (hsize : 1 ≤ size) (c : Client) :
    ∃ c1 bs, c.startBufferFlushLoop_tick size = some c1 ∧
      c1.buffer = [] ∧ c1.ch = c.ch ++ bs ∧ bs.flatten = c.buffer ∧
      c1.cursorStatus = c.cursorStatus ∧ c1.id = c.id ∧
      (c.buffer = [] → c1 = c) ∧
      (∀ last, c.buffer.getLast? = some last → c1.cursorPosition = last.Id) := by
  unfold Client.startBufferFlushLoop_tick
  by_cases hlen : c.buffer.length = 0
  · have hnil : c.buffer = [] := List.length_eq_zero.mp hlen
    refine ⟨c, [], ?_, hnil, (List.append_nil _).symm, hnil.symm, rfl, rfl, fun _ => rfl, ?_⟩
    · rw [if_pos hlen]
    · intro last hlast
      rw [hnil] at hlast
      cases hlast
  · rw [if_neg hlen]
    cases hlast : c.buffer.getLast? with
    | none =>
      rw [List.getLast?_eq_none_iff] at hlast
      exact absurd (by rw [hlast]; rfl) hlen
    | some last =>
      obtain ⟨bs, hrun, hflat, _, _, _⟩ :=
        flushBuffer_spec size hsize { c with cursorPosition := last.Id }
      refine ⟨{ c with ch := c.ch ++ bs, buffer := [], cursorPosition := last.Id }, bs,
        ?_, rfl, rfl, hflat, rfl, rfl, ?_, ?_⟩
      · simp only [hrun, Option.map_some', Client.clearBuffer]
      · intro hnil
        exact absurd (by rw [hnil]; rfl) hlen
      · intro last1 hlast1
        cases hlast1
        rfl

end Logdy

namespace Logdy

open CursorStatus

/-! ## Lemmas: steps of the running system -/

theorem handleMessage_status (c : Client) (m : Message) (force : Bool) :
    (c.handleMessage m force).cursorStatus = c.cursorStatus := by
  unfold Client.handleMessage
  split <;> rfl

theorem Start_iter_client (c : Clients) (a : Arrival) (id : String) :
    Registry.get (c.Start_iter a).clients id
      = (Registry.get c.clients id).map (fun cl => cl.handleMessage a.msg false) := by
  simp only [Clients.Start_iter]
  exact Registry.get_map c.clients (fun cl => cl.handleMessage a.msg false) id

/-- Effect of one step, for a positive batch size, on the log and on every
registered client. -/
theorem step_spec (size : Nat) (hsize : 1 ≤ size) (c : Clients) (s : Step) :
    ∃ c1, c.step size s = some c1 ∧
      c1.buffer = c.buffer ++ ingested [s] ∧
      ∀ id cl, Registry.get c.clients id = some cl →
        ∃ cl1, Registry.get c1.clients id = some cl1 ∧
          cl1.cursorStatus = cl.cursorStatus ∧
          (∃ bs, cl1.ch = cl.ch ++ bs ∧ (cl.cursorStatus = CURSOR_FOLLOWING →
            bs.flatten ++ cl1.buffer = cl.buffer ++ ingested [s])) ∧
          (cl.cursorStatus = CURSOR_STOPPED → cl.buffer = [] → cl1 = cl) := by
  cases s with
  | ingest a =>
    refine ⟨c.Start_iter a, rfl, ?_, ?_⟩
    · simp [Clients.Start_iter, ingested]
    · intro id cl hget
      refine ⟨cl.handleMessage a.msg false, ?_, ?_, ?_, ?_⟩
      · rw [Start_iter_client, hget]; rfl
      · exact (handleMessage_status cl a.msg false)
      · refine ⟨[], ?_, ?_⟩
        · simp [Client.handleMessage]
          split <;> rfl
        · intro hfol
          simp [Client.handleMessage, hfol, ingested]
      · intro hstop _
        simp [Client.handleMessage, hstop]
  | tick tid =>
    simp only [Clients.step, Clients.tick, ingested, List.append_nil]
    cases htid : Registry.get c.clients tid with
    | none =>
      refine ⟨c, rfl, rfl, ?_⟩
      intro id cl hget
      exact ⟨cl, hget, rfl, ⟨[], (List.append_nil _).symm, fun _ => rfl⟩, fun _ _ => rfl⟩
    | some tcl =>
      obtain ⟨tcl1, bs, hrun, hbuf, hch, hflat, hstat, _, hsame, _⟩ :=
        startBufferFlushLoop_tick_spec size hsize tcl
      refine ⟨{ c with clients := Registry.set c.clients tid tcl1 }, ?_, rfl, ?_⟩
      · simp only [hrun]
      · intro id cl hget
        by_cases hid : id = tid
        · subst hid
          rw [htid] at hget
          cases hget
          refine ⟨tcl1, Registry.get_set_same _ _ _, hstat, ⟨bs, hch, ?_⟩, ?_⟩
          · intro _
            rw [hflat, hbuf, List.append_nil]
          · intro _ hnil
            exact hsame hnil
        · refine ⟨cl, ?_, rfl, ⟨[], (List.append_nil _).symm, fun _ => rfl⟩, fun _ _ => rfl⟩
          rw [Registry.get_set_other _ _ _ _ hid]
          exact hget

theorem ingested_append (xs ys : List Step) : ingested (xs ++ ys) = ingested xs ++ ingested ys := by
  induction xs with
  | nil => rfl
  | cons s rest ih =>
    cases s with
    | ingest a => simp [ingested, ih]
    | tick tid => simp [ingested, ih]

/-- Effect of a sequence of steps, for a positive batch size: the run
returns; the log grows by the ingested messages; a `Following` client is
handed exactly the ingested messages, in order; a stopped client with an empty
pending buffer is untouched. -/
theorem run_spec (size : Nat) (hsize : 1 ≤ size) (steps : List Step) :
    ∀ c : Clients, ∃ c1, c.run size steps = some c1 ∧
      c1.buffer = c.buffer ++ ingested steps ∧
      ∀ id cl, Registry.get c.clients id = some cl →
        ∃ cl1, Registry.get c1.clients id = some cl1 ∧
          cl1.cursorStatus = cl.cursorStatus ∧
          (∃ bs, cl1.ch = cl.ch ++ bs ∧ (cl.cursorStatus = CURSOR_FOLLOWING →
            bs.flatten ++ cl1.buffer = cl.buffer ++ ingested steps)) ∧
          (cl.cursorStatus = CURSOR_STOPPED → cl.buffer = [] → cl1 = cl) := by
  induction steps with
  | nil =>
    intro c
    refine ⟨c, rfl, by simp [ingested], ?_⟩
    intro id cl hget
    exact ⟨cl, hget, rfl, ⟨[], (List.append_nil _).symm, fun _ => by simp [ingested]⟩,
      fun _ _ => rfl⟩
  | cons s rest ih =>
    intro c
    obtain ⟨c1, hstep, hlog1, hcl1⟩ := step_spec size hsize c s
    obtain ⟨c2, hrun, hlog2, hcl2⟩ := ih c1
    have hing : ingested (s :: rest) = ingested [s] ++ ingested rest :=
      ingested_append [s] rest
    refine ⟨c2, ?_, ?_, ?_⟩
    · simp only [Clients.run, hstep, hrun]
    · rw [hlog2, hlog1, hing, List.append_assoc]
    · intro id cl hget
      obtain ⟨cl1, hget1, hst1, ⟨bs1, hch1, hfol1⟩, hstop1⟩ := hcl1 id cl hget
      obtain ⟨cl2, hget2, hst2, ⟨bs2, hch2, hfol2⟩, hstop2⟩ := hcl2 id cl1 hget1
      refine ⟨cl2, hget2, hst2.trans hst1, ⟨bs1 ++ bs2, ?_, ?_⟩, ?_⟩
      · rw [hch2, hch1, List.append_assoc]
      · intro hfol
        rw [List.flatten_append, List.append_assoc, hfol2 (hst1.trans hfol),
          ← List.append_assoc, hfol1 hfol, hing, List.append_assoc]
      · intro hstop hnil
        have h1 : cl1 = cl := hstop1 hstop hnil
        subst h1
        exact hstop2 hstop hnil

/-- What `Join` does for a non-negative tail length. -/
theorem Join_spec (c : Clients) (newId : String) (n : Nat) :
    c.Join newId (n : Int) =
      some ({ c with
                clients := Registry.set c.clients newId
                  { id := newId, ch := [], buffer := c.buffer.drop (c.buffer.length - n),
                    cursorStatus := CURSOR_FOLLOWING, cursorPosition := "" }
                currentlyConnected := c.currentlyConnected + 1 },
            { id := newId, ch := [], buffer := c.buffer.drop (c.buffer.length - n),
              cursorStatus := CURSOR_FOLLOWING, cursorPosition := "" }) := by
  have hidx : (if (c.buffer.length : Int) > (n : Int) then (c.buffer.length : Int) - (n : Int)
      else 0) = ((c.buffer.length - n : Nat) : Int) := by
    split <;> omega
  unfold Clients.Join
  simp only [hidx]
  rw [if_neg (by omega)]
  simp [foldl_handleMessage_force, NewClient]

end Logdy

namespace Logdy

open CursorStatus

/-! ## Lemmas: the replay loop of `ResumeFollowing` -/

theorem ResumeFollowing_loop_seen (log : List Message) :
    ∀ cl : Client, (∀ m ∈ log, m.Id ≠ cl.cursorPosition) →
      ResumeFollowing_loop log true cl = { cl with buffer := cl.buffer ++ log } := by
  induction log with
  | nil => intro cl _; simp [ResumeFollowing_loop]
  | cons m rest ih =>
    intro cl hne
    have hm : m.Id ≠ cl.cursorPosition := hne m (List.mem_cons_self _ _)
    have hrest : ∀ x ∈ rest, x.Id ≠ (cl.handleMessage m true).cursorPosition := by
      intro x hx
      simpa [Client.handleMessage] using hne x (List.mem_cons_of_mem _ hx)
    simp only [ResumeFollowing_loop, if_neg hm]
    rw [ih _ hrest]
    simp [Client.handleMessage]

theorem ResumeFollowing_loop_unseen (log : List Message) (cl : Client)
    (hne : ∀ m ∈ log, m.Id ≠ cl.cursorPosition) :
    ResumeFollowing_loop log false cl = cl := by
  induction log with
  | nil => rfl
  | cons m rest ih =>
    have hm : m.Id ≠ cl.cursorPosition := hne m (List.mem_cons_self _ _)
    simp only [ResumeFollowing_loop, if_neg hm]
    exact ih (fun x hx => hne x (List.mem_cons_of_mem _ hx))

theorem ResumeFollowing_loop_at (cl : Client) :
    ∀ (log : List Message) (p : Nat) (m : Message), log[p]? = some m →
      (log.map Message.Id).Nodup → cl.cursorPosition = m.Id →
      ResumeFollowing_loop log false cl = { cl with buffer := cl.buffer ++ log.drop (p + 1) } := by
  intro log
  induction log with
  | nil => intro p m hm; simp at hm
  | cons x rest ih =>
    intro p m hm hnodup hcur
    rw [List.map_cons, List.nodup_cons] at hnodup
    cases p with
    | zero =>
      simp only [List.getElem?_cons_zero, Option.some.injEq] at hm
      subst hm
      simp only [ResumeFollowing_loop, if_pos hcur.symm]
      rw [ResumeFollowing_loop_seen]
      · simp
      · intro y hy hyeq
        exact hnodup.1 (by rw [← hcur, ← hyeq]; exact List.mem_map_of_mem _ hy)
    | succ q =>
      simp only [List.getElem?_cons_succ] at hm
      have hx : x.Id ≠ cl.cursorPosition := by
        intro hxeq
        apply hnodup.1
        rw [hxeq, hcur]
        exact List.mem_map_of_mem _ (List.getElem?_mem hm)
      simp only [ResumeFollowing_loop, if_neg hx]
      rw [ih q m hm hnodup.2 hcur]
      simp

/-- What `ResumeFollowing` does on a registered client, for a positive batch
size: it returns; the client after the optional replay (`cl1`) has its
pending buffer sent to the channel and its mode set to `Following`; the
pending buffer is not cleared. -/
theorem ResumeFollowing_spec (size : Nat) (hsize : 1 ≤ size) (c : Clients) (clientId : String)
    (sinceCursor : Bool) (cl cl1 : Client) (hreg : Registry.get c.clients clientId = some cl)
    (hcl1 : cl1 = if sinceCursor then ResumeFollowing_loop c.buffer false cl else cl) :
    ∃ bs, bs.flatten = cl1.buffer ∧ (cl1.buffer = [] → bs = []) ∧
      c.ResumeFollowing size clientId sinceCursor =
        some { c with
          clients := Registry.set c.clients clientId
            ({ cl1 with ch := cl1.ch ++ bs, cursorStatus := CURSOR_FOLLOWING }) } := by
  obtain ⟨bs, hrun, hflat, _, _, hnil⟩ := flushBuffer_spec size hsize cl1
  refine ⟨bs, hflat, hnil, ?_⟩
  unfold Clients.ResumeFollowing
  simp only [hreg]
  rw [← hcl1]
  simp only [hrun]

end Logdy

namespace Logdy

open CursorStatus

/-! ## Delivery order, pause and resume, join -/

/-- C5: a subscriber that joins on an empty log is in `Following` mode, and
after any interleaving of ingest steps and flush ticks (batch size at least
one) it is still in `Following` mode and the batches delivered to its channel,
concatenated, followed by its pending buffer are exactly the ingested
messages in ingestion order; once pending is empty the delivered sequence is
the ingested sequence. -/
theorem following_order_preserved (size : Nat) (hsize : 1 ≤ size) (c0 : Clients)
    (hlog : c0.buffer = []) (newId : String) (tailLen : Nat) (steps : List Step) :
    ∃ c1 cl c2 cl2, c0.Join newId (tailLen : Int) = some (c1, cl) ∧
      cl.cursorStatus = CURSOR_FOLLOWING ∧
      c1.run size steps = some c2 ∧
      Registry.get c2.clients newId = some cl2 ∧
      cl2.cursorStatus = CURSOR_FOLLOWING ∧
      cl2.ch.flatten ++ cl2.buffer = ingested steps ∧
      (cl2.buffer = [] → cl2.ch.flatten = ingested steps) := by
  obtain ⟨c2, hrun, _, hcl⟩ := run_spec size hsize steps
    { c0 with
      clients := Registry.set c0.clients newId
        { id := newId, ch := [], buffer := c0.buffer.drop (c0.buffer.length - tailLen),
          cursorStatus := CURSOR_FOLLOWING, cursorPosition := "" }
      currentlyConnected := c0.currentlyConnected + 1 }
  obtain ⟨cl2, hget2, hst2, ⟨bs, hch, hfol⟩, _⟩ := hcl newId _ (Registry.get_set_same _ _ _)
  have hstream : cl2.ch.flatten ++ cl2.buffer = ingested steps := by
    have h := hfol rfl
    rw [hch]
    simpa [hlog] using h
  refine ⟨_, _, c2, cl2, Join_spec c0 newId tailLen, rfl, hrun, hget2, hst2, hstream, ?_⟩
  intro hnil
  rw [hnil, List.append_nil] at hstream
  exact hstream

theorem following_order_preserved_witness :
    1 ≤ 2 ∧ NewClients.buffer = [] ∧
    ∃ c1 cl c2 cl2, NewClients.Join "a" ((0 : Nat) : Int) = some (c1, cl) ∧
      cl.cursorStatus = CURSOR_FOLLOWING ∧
      c1.run 2 [Step.ingest (mkArrival "1"), Step.ingest (mkArrival "2"),
        Step.ingest (mkArrival "3"), Step.tick "a", Step.ingest (mkArrival "4")] = some c2 ∧
      Registry.get c2.clients "a" = some cl2 ∧
      cl2.cursorStatus = CURSOR_FOLLOWING ∧
      cl2.ch.flatten ++ cl2.buffer
        = ingested [Step.ingest (mkArrival "1"), Step.ingest (mkArrival "2"),
            Step.ingest (mkArrival "3"), Step.tick "a", Step.ingest (mkArrival "4")] ∧
      (cl2.buffer = [] → cl2.ch.flatten
        = ingested [Step.ingest (mkArrival "1"), Step.ingest (mkArrival "2"),
            Step.ingest (mkArrival "3"), Step.tick "a", Step.ingest (mkArrival "4")]) :=
  ⟨by decide, rfl, following_order_preserved 2 (by decide) NewClients rfl "a" 0 _⟩

/-- C6 (evaluation of the code): a stopped subscriber with empty pending
whose cursor `1` is the id of the last log event; one further event `2` is
ingested; `ResumeFollowing(a, true)` sends the batch `[2]` and leaves `2` in
the pending buffer; the next flush tick sends `[2]` again.  The event is
delivered twice. -/
theorem ResumeFollowing_then_tick_delivers_twice :
    (((caughtUpState.Start_iter (mkArrival "2")).ResumeFollowing FLUSH_BUFFER_SIZE "a" true).bind
        (fun c1 => Registry.get c1.clients "a")
      = some { id := "a", ch := [[mkMsg "1"], [mkMsg "2"]], buffer := [mkMsg "2"],
               cursorStatus := CURSOR_FOLLOWING, cursorPosition := "1" }) ∧
    ((((caughtUpState.Start_iter (mkArrival "2")).ResumeFollowing FLUSH_BUFFER_SIZE "a" true).bind
        (fun c1 => c1.tick FLUSH_BUFFER_SIZE "a")).bind
        (fun c2 => Registry.get c2.clients "a")
      = some { id := "a", ch := [[mkMsg "1"], [mkMsg "2"], [mkMsg "2"]], buffer := [],
               cursorStatus := CURSOR_FOLLOWING, cursorPosition := "2" }) := by
  decide

/-- C7: on a log with pairwise distinct ids, for a registered subscriber (in
any mode) whose cursor is the id of the log event at position `p`,
`ResumeFollowing(id, true)` with a batch size of at least one returns, the
pending buffer is the old pending buffer followed by the log events at the
positions after `p` in log order, and the mode is `Following`. -/
theorem ResumeFollowing_since_cursor (size : Nat) (hsize : 1 ≤ size) (c : Clients)
    (clientId : String) (cl : Client) (p : Nat) (m : Message)
    (hreg : Registry.get c.clients clientId = some cl)
    (hnodup : (c.buffer.map Message.Id).Nodup)
    (hm : c.buffer[p]? = some m) (hcur : cl.cursorPosition = m.Id) :
    ∃ c1 cl1, c.ResumeFollowing size clientId true = some c1 ∧
      Registry.get c1.clients clientId = some cl1 ∧
      cl1.buffer = cl.buffer ++ c.buffer.drop (p + 1) ∧
      cl1.cursorStatus = CURSOR_FOLLOWING ∧
      c1.buffer = c.buffer := by
  obtain ⟨bs, _, _, hrun⟩ := ResumeFollowing_spec size hsize c clientId true cl
    { cl with buffer := cl.buffer ++ c.buffer.drop (p + 1) } hreg
    (by rw [if_pos rfl, ResumeFollowing_loop_at cl c.buffer p m hm hnodup hcur])
  exact ⟨_, _, hrun, Registry.get_set_same _ _ _, rfl, rfl, rfl⟩

theorem ResumeFollowing_since_cursor_witness :
    1 ≤ 2 ∧ Registry.get pausedState.clients "a"
        = some { id := "a", ch := [[mkMsg "1"]], buffer := [],
                 cursorStatus := CURSOR_STOPPED, cursorPosition := "1" } ∧
      (pausedState.buffer.map Message.Id).Nodup ∧
      pausedState.buffer[0]? = some (mkMsg "1") ∧
      ∃ c1 cl1, pausedState.ResumeFollowing 2 "a" true = some c1 ∧
        Registry.get c1.clients "a" = some cl1 ∧
        cl1.buffer = [] ++ pausedState.buffer.drop (0 + 1) ∧
        cl1.cursorStatus = CURSOR_FOLLOWING ∧
        c1.buffer = pausedState.buffer :=
  ⟨by decide, rfl, by decide, rfl,
    ResumeFollowing_since_cursor 2 (by decide) pausedState "a"
      { id := "a", ch := [[mkMsg "1"]], buffer := [],
        cursorStatus := CURSOR_STOPPED, cursorPosition := "1" } 0 (mkMsg "1")
      rfl (by decide) rfl rfl⟩

end Logdy

namespace Logdy

open CursorStatus

/-- C8 (as stated, refuted): client `a` holds the empty initial cursor, which
is not the id of any of the two events in the log; `ResumeFollowing(a, true)`
leaves its pending buffer empty and sends nothing, so the replay does not
enqueue the full log. -/
theorem ResumeFollowing_unknown_cursor_counterexample :
    Registry.get freshCursorState.clients "a"
        = some { id := "a", ch := [], buffer := [],
                 cursorStatus := CURSOR_STOPPED, cursorPosition := "" } ∧
      (∀ m ∈ freshCursorState.buffer, m.Id ≠ "") ∧
      freshCursorState.buffer = [mkMsg "1", mkMsg "2"] ∧
      (freshCursorState.ResumeFollowing FLUSH_BUFFER_SIZE "a" true).bind
          (fun c1 => Registry.get c1.clients "a")
        = some { id := "a", ch := [], buffer := [],
                 cursorStatus := CURSOR_FOLLOWING, cursorPosition := "" } ∧
      ¬ ∃ c1 cl1, freshCursorState.ResumeFollowing FLUSH_BUFFER_SIZE "a" true = some c1 ∧
          Registry.get c1.clients "a" = some cl1 ∧
          cl1.buffer = [] ++ freshCursorState.buffer := by
  refine ⟨rfl, by decide, rfl, by decide, ?_⟩
  rintro ⟨c1, cl1, hrun, hget, hbuf⟩
  have heval : (freshCursorState.ResumeFollowing FLUSH_BUFFER_SIZE "a" true).bind
      (fun c1 => Registry.get c1.clients "a")
        = some { id := "a", ch := [], buffer := [],
                 cursorStatus := CURSOR_FOLLOWING, cursorPosition := "" } := by decide
  rw [hrun, Option.some_bind, hget] at heval
  cases heval
  exact absurd hbuf (by decide)

/-- C8 (amended): when the cursor of a registered subscriber is not the id of
any event in the log, `ResumeFollowing(id, true)` with a batch size of at
least one returns and its replay enqueues no event: the pending buffer is
left as it was; the mode is `Following`. -/
theorem ResumeFollowing_unknown_cursor (size : Nat) (hsize : 1 ≤ size) (c : Clients)
    (clientId : String) (cl : Client)
    (hreg : Registry.get c.clients clientId = some cl)
    (hunknown : ∀ m ∈ c.buffer, m.Id ≠ cl.cursorPosition) :
    ∃ c1 cl1, c.ResumeFollowing size clientId true = some c1 ∧
      Registry.get c1.clients clientId = some cl1 ∧
      cl1.buffer = cl.buffer ∧
      cl1.cursorStatus = CURSOR_FOLLOWING ∧
      c1.buffer = c.buffer := by
  obtain ⟨bs, _, _, hrun⟩ := ResumeFollowing_spec size hsize c clientId true cl cl hreg
    (by rw [if_pos rfl, ResumeFollowing_loop_unseen c.buffer cl hunknown])
  exact ⟨_, _, hrun, Registry.get_set_same _ _ _, rfl, rfl, rfl⟩

theorem ResumeFollowing_unknown_cursor_witness :
    1 ≤ 2 ∧ Registry.get freshCursorState.clients "a"
        = some { id := "a", ch := [], buffer := [],
                 cursorStatus := CURSOR_STOPPED, cursorPosition := "" } ∧
      (∀ m ∈ freshCursorState.buffer, m.Id ≠ "") ∧
      ∃ c1 cl1, freshCursorState.ResumeFollowing 2 "a" true = some c1 ∧
        Registry.get c1.clients "a" = some cl1 ∧
        cl1.buffer = [] ∧
        cl1.cursorStatus = CURSOR_FOLLOWING ∧
        c1.buffer = freshCursorState.buffer :=
  ⟨by decide, rfl, by decide,
    ResumeFollowing_unknown_cursor 2 (by decide) freshCursorState "a"
      { id := "a", ch := [], buffer := [],
        cursorStatus := CURSOR_STOPPED, cursorPosition := "" } rfl (by decide)⟩

/-- C9: a registered subscriber that is stopped with an empty pending buffer
stays untouched while events are ingested (and flush loops tick);
`ResumeFollowing(id, false)` then returns with the pending buffer still empty,
nothing sent to the channel and the mode `Following`; from then on the batches
delivered to its channel, followed by its pending buffer, are exactly the
events ingested after the resume, in order, so none of the events ingested
while stopped is delivered and the first delivered event is the first one
ingested after the resume. -/
theorem ResumeFollowing_without_backfill (size : Nat) (hsize : 1 ≤ size) (c : Clients)
    (clientId : String) (cl : Client)
    (hreg : Registry.get c.clients clientId = some cl)
    (hstop : cl.cursorStatus = CURSOR_STOPPED) (hempty : cl.buffer = [])
    (during later : List Step) :
    ∃ c1 c2 cl2 c3 cl3 bs,
      c.run size during = some c1 ∧
      c1.ResumeFollowing size clientId false = some c2 ∧
      Registry.get c2.clients clientId = some cl2 ∧
      cl2.buffer = [] ∧ cl2.ch = cl.ch ∧ cl2.cursorStatus = CURSOR_FOLLOWING ∧
      c2.run size later = some c3 ∧
      Registry.get c3.clients clientId = some cl3 ∧
      cl3.cursorStatus = CURSOR_FOLLOWING ∧
      cl3.ch = cl.ch ++ bs ∧
      bs.flatten ++ cl3.buffer = ingested later := by
  obtain ⟨c1, hrun1, _, hcl1⟩ := run_spec size hsize during c
  obtain ⟨cl1, hget1, _, _, hsame⟩ := hcl1 clientId cl hreg
  have hcl1eq : cl1 = cl := hsame hstop hempty
  subst hcl1eq
  obtain ⟨bs0, _, hnil, hres⟩ :=
    ResumeFollowing_spec size hsize c1 clientId false cl1 cl1 hget1 (by simp)
  have hbs0 : bs0 = [] := hnil hempty
  subst hbs0
  obtain ⟨c3, hrun3, _, hcl3⟩ := run_spec size hsize later
    { c1 with
      clients := Registry.set c1.clients clientId
        ({ cl1 with ch := cl1.ch ++ [], cursorStatus := CURSOR_FOLLOWING }) }
  obtain ⟨cl3, hget3, hst3, ⟨bs, hch, hfol⟩, _⟩ :=
    hcl3 clientId _ (Registry.get_set_same _ _ _)
  refine ⟨c1, _, _, c3, cl3, bs, hrun1, hres, Registry.get_set_same _ _ _, hempty,
    List.append_nil _, rfl, hrun3, hget3, hst3, ?_, ?_⟩
  · rw [hch]
    simp
  · have h := hfol rfl
    simpa [hempty] using h

theorem ResumeFollowing_without_backfill_witness :
    1 ≤ 2 ∧ Registry.get caughtUpState.clients "a"
        = some { id := "a", ch := [[mkMsg "1"]], buffer := [],
                 cursorStatus := CURSOR_STOPPED, cursorPosition := "1" } ∧
      ∃ c1 c2 cl2 c3 cl3 bs,
        caughtUpState.run 2 [Step.ingest (mkArrival "2"), Step.tick "a",
          Step.ingest (mkArrival "3")] = some c1 ∧
        c1.ResumeFollowing 2 "a" false = some c2 ∧
        Registry.get c2.clients "a" = some cl2 ∧
        cl2.buffer = [] ∧ cl2.ch = [[mkMsg "1"]] ∧ cl2.cursorStatus = CURSOR_FOLLOWING ∧
        c2.run 2 [Step.ingest (mkArrival "4"), Step.tick "a", Step.ingest (mkArrival "5")]
          = some c3 ∧
        Registry.get c3.clients "a" = some cl3 ∧
        cl3.cursorStatus = CURSOR_FOLLOWING ∧
        cl3.ch = [[mkMsg "1"]] ++ bs ∧
        bs.flatten ++ cl3.buffer
          = ingested [Step.ingest (mkArrival "4"), Step.tick "a", Step.ingest (mkArrival "5")] :=
  ⟨by decide, rfl,
    ResumeFollowing_without_backfill 2 (by decide) caughtUpState "a"
      { id := "a", ch := [[mkMsg "1"]], buffer := [],
        cursorStatus := CURSOR_STOPPED, cursorPosition := "1" } rfl rfl rfl _ _⟩

/-- C10: on a log of `M` events, `Join` with a tail length `n >= 0` returns a
new subscriber whose pending buffer is the last `min n M` events of the log in
log order, whose mode is `Following`, and which is registered under its id;
the log is unchanged and the connected count grows by one. -/
theorem Join_tail (c : Clients) (newId : String) (n : Nat) :
    ∃ c1 cl, c.Join newId (n : Int) = some (c1, cl) ∧
      cl.buffer = c.buffer.drop (c.buffer.length - min n c.buffer.length) ∧
      cl.buffer.length = min n c.buffer.length ∧
      cl.cursorStatus = CURSOR_FOLLOWING ∧
      cl.id = newId ∧
      Registry.get c1.clients cl.id = some cl ∧
      c1.buffer = c.buffer ∧
      c1.currentlyConnected = c.currentlyConnected + 1 := by
  refine ⟨_, _, Join_spec c newId n, ?_, ?_, rfl, rfl, Registry.get_set_same _ _ _, rfl, rfl⟩
  · show c.buffer.drop (c.buffer.length - n) = _
    congr 1
    omega
  · show (c.buffer.drop (c.buffer.length - n)).length = _
    rw [List.length_drop]
    omega

end Logdy

namespace Logdy

open CursorStatus

/-! ## Lemmas: `waitForBufferDrain`, `PauseFollowing`, the loop of `Load` -/

/-- For a positive batch size the wait ends: the buffer is empty afterwards,
the channel got batches whose concatenation is the old buffer, the status and
the id are unchanged, and a client whose buffer was empty is untouched. -/
theorem waitForBufferDrain_spec (size : Nat) (hsize : 1 ≤ size) (c : Client) :
    ∃ c1 bs, c.waitForBufferDrain size = some c1 ∧
      c1.buffer = [] ∧ c1.ch = c.ch ++ bs ∧ bs.flatten = c.buffer ∧
      c1.cursorStatus = c.cursorStatus ∧ c1.id = c.id ∧
      (c.buffer = [] → c1 = c) ∧
      c1.cursorPosition = (match c.buffer.getLast? with
        | some last => last.Id
        | none => c.cursorPosition) := by
  unfold Client.waitForBufferDrain
  by_cases hlen : c.buffer.length > 0
  · obtain ⟨c1, bs, hrun, hbuf, hch, hflat, hstat, hid, _, hcur⟩ :=
      startBufferFlushLoop_tick_spec size hsize c
    refine ⟨c1, bs, ?_, hbuf, hch, hflat, hstat, hid, ?_, ?_⟩
    · rw [if_pos hlen]
      simp only [hrun]
      rw [if_neg (by rw [hbuf]; simp)]
    · intro hnil
      rw [hnil] at hlen
      simp at hlen
    · cases hlast : c.buffer.getLast? with
      | none =>
        rw [List.getLast?_eq_none_iff] at hlast
        rw [hlast] at hlen
        simp at hlen
      | some last => exact hcur last hlast
  · have hnil : c.buffer = [] := List.length_eq_zero.mp (by omega)
    refine ⟨c, [], ?_, hnil, (List.append_nil _).symm, hnil.symm, rfl, rfl, fun _ => rfl, ?_⟩
    · rw [if_neg hlen]
    · rw [hnil]
      rfl

/-- Once the start position is behind the range index and fewer than `count`
messages were sent, the loop of `Load` enqueues the next `count - sent`
messages. -/
theorem Load_loop_seen (start count : Int) (includeStart : Bool) (log : List Message) :
    ∀ (i : Nat) (sent : Int) (cl : Client), start < (i : Int) + 1 → 0 ≤ sent → sent < count →
      Load_loop start count includeStart log i true sent cl
        = { cl with buffer := cl.buffer ++ log.take (count - sent).toNat } := by
  induction log with
  | nil => intro i sent cl _ _ _; simp [Load_loop]
  | cons msg rest ih =>
    intro i sent cl hstart hsent hcount
    have hne : ¬ ((i : Int) + 1 = start) := by omega
    obtain ⟨k, hk⟩ : ∃ k : Nat, (count - sent).toNat = k + 1 :=
      ⟨(count - sent).toNat - 1, by omega⟩
    simp only [Load_loop, hne, if_false, false_and, Bool.not_true, Bool.false_eq_true]
    by_cases hbreak : count > 0 ∧ sent + 1 ≥ count
    · rw [if_pos hbreak]
      have hk0 : k = 0 := by omega
      rw [hk, hk0]
      simp [Client.handleMessage]
    · rw [if_neg hbreak]
      rw [ih (i + 1) (sent + 1) _ (by push_cast; omega) (by omega) (by omega)]
      have hk1 : (count - (sent + 1)).toNat = k := by omega
      rw [hk, hk1]
      simp [Client.handleMessage]

/-- The loop of `Load` before the start position, `d` messages ahead of it:
it skips `d` messages, then (skipping the start message unless `includeStart`)
enqueues `count` messages. -/
theorem Load_loop_unseen (start count : Int) (includeStart : Bool) (hcount : 1 ≤ count)
    (log : List Message) :
    ∀ (i d : Nat) (cl : Client), start = (i : Int) + 1 + (d : Int) →
      Load_loop start count includeStart log i false 0 cl
        = { cl with buffer := cl.buffer ++
              (log.drop (if includeStart then d else d + 1)).take count.toNat } := by
  induction log with
  | nil => intro i d cl _; simp [Load_loop]
  | cons msg rest ih =>
    intro i d cl hstart
    cases d with
    | zero =>
      have heq : (i : Int) + 1 = start := by omega
      cases includeStart with
      | false =>
        simp only [Load_loop, heq, if_true, and_self]
        rw [Load_loop_seen start count false rest (i + 1) 0 cl (by push_cast; omega)
          (le_refl _) (by omega)]
        simp
      | true =>
        simp only [Load_loop, heq, if_true, Bool.not_true, Bool.false_eq_true, if_false,
          and_false, Bool.true_eq_false]
        obtain ⟨k, hk⟩ : ∃ k : Nat, count.toNat = k + 1 := ⟨count.toNat - 1, by omega⟩
        by_cases hbreak : count > 0 ∧ (0 : Int) + 1 ≥ count
        · rw [if_pos hbreak]
          have hk0 : k = 0 := by omega
          rw [hk, hk0]
          simp [Client.handleMessage]
        · rw [if_neg hbreak]
          rw [Load_loop_seen start count true rest (i + 1) (0 + 1) _ (by push_cast; omega)
            (by omega) (by omega)]
          have hk1 : (count - (0 + 1)).toNat = k := by omega
          rw [hk, hk1]
          simp [Client.handleMessage]
    | succ e =>
      have hne : ¬ ((i : Int) + 1 = start) := by push_cast at hstart; omega
      simp only [Load_loop, hne, if_false, false_and, Bool.not_false, if_true]
      rw [ih (i + 1) e cl (by push_cast at hstart ⊢; omega)]
      cases includeStart <;> simp

/-- The loop of `Load` when the start position is behind the range index and
was never met: nothing is enqueued. -/
theorem Load_loop_never (start count : Int) (includeStart : Bool) (log : List Message) :
    ∀ (i : Nat) (cl : Client), start < (i : Int) + 1 →
      Load_loop start count includeStart log i false 0 cl = cl := by
  induction log with
  | nil => intro i cl _; rfl
  | cons msg rest ih =>
    intro i cl hstart
    have hne : ¬ ((i : Int) + 1 = start) := by omega
    simp only [Load_loop, hne, if_false, false_and, Bool.not_false, if_true]
    exact ih (i + 1) cl (by push_cast; omega)

/-- The loop of `Load` changes nothing but the pending buffer, to which it
appends. -/
theorem Load_loop_frame (start count : Int) (includeStart : Bool) (log : List Message) :
    ∀ (i : Nat) (seen : Bool) (sent : Int) (cl : Client),
      ∃ msgs, Load_loop start count includeStart log i seen sent cl
        = { cl with buffer := cl.buffer ++ msgs } := by
  induction log with
  | nil => intro i seen sent cl; exact ⟨[], by simp [Load_loop]⟩
  | cons msg rest ih =>
    intro i seen sent cl
    simp only [Load_loop]
    generalize (if (i : Int) + 1 = start then true else seen) = seen1
    by_cases h1 : (i : Int) + 1 = start ∧ includeStart = false
    · rw [if_pos h1]
      exact ih _ _ _ _
    · rw [if_neg h1]
      cases seen1 with
      | false =>
        simp only [Bool.not_false, if_true]
        exact ih _ _ _ _
      | true =>
        simp only [Bool.not_true, Bool.false_eq_true, if_false]
        by_cases hbreak : count > 0 ∧ sent + 1 ≥ count
        · rw [if_pos hbreak]
          exact ⟨[msg], by simp [Client.handleMessage]⟩
        · rw [if_neg hbreak]
          obtain ⟨msgs, h⟩ := ih (i + 1) true (sent + 1) (cl.handleMessage msg true)
          exact ⟨msg :: msgs, by rw [h]; simp [Client.handleMessage]⟩

end Logdy

namespace Logdy

open CursorStatus

/-- What `PauseFollowing` does on a registered client, for a positive batch
size: it returns; the client (`cl1`) is stopped with an empty pending buffer,
what was pending having been sent by its flush loop; no other client and no
other field of the state changes. -/
theorem PauseFollowing_spec (size : Nat) (hsize : 1 ≤ size) (c : Clients) (clientId : String)
    (cl : Client) (hreg : Registry.get c.clients clientId = some cl) :
    ∃ cl1 bs, c.PauseFollowing size clientId
        = some { c with clients := Registry.set c.clients clientId cl1 } ∧
      cl1.buffer = [] ∧ cl1.cursorStatus = CURSOR_STOPPED ∧
      cl1.ch = cl.ch ++ bs ∧ bs.flatten = cl.buffer ∧ cl1.id = cl.id ∧
      (cl.buffer = [] → cl1 = { cl with cursorStatus := CURSOR_STOPPED }) ∧
      cl1.cursorPosition = (match cl.buffer.getLast? with
        | some last => last.Id
        | none => cl.cursorPosition) := by
  obtain ⟨cl1, bs, hrun, hbuf, hch, hflat, hstat, hid, hsame, hcur⟩ :=
    waitForBufferDrain_spec size hsize { cl with cursorStatus := CURSOR_STOPPED }
  refine ⟨cl1, bs, ?_, hbuf, hstat, hch, hflat, hid, hsame, hcur⟩
  unfold Clients.PauseFollowing
  simp only [hreg, hrun]

/-- What `Load` does on a registered client, for a positive batch size: it
returns; after the pause (client `cl1`, stopped, pending empty) the loop
enqueues some messages `msgs` of the log, which `flushBuffer` sends and leaves
in the pending buffer; nothing else changes. -/
theorem Load_spec (size : Nat) (hsize : 1 ≤ size) (c : Clients) (clientId : String)
    (start count : Int) (includeStart : Bool)
    (cl : Client) (hreg : Registry.get c.clients clientId = some cl) :
    ∃ c1 cl1 bs0 msgs bs, c.Load size clientId start count includeStart = some c1 ∧
      cl1.buffer = [] ∧ cl1.cursorStatus = CURSOR_STOPPED ∧
      cl1.ch = cl.ch ++ bs0 ∧ bs0.flatten = cl.buffer ∧
      (cl.buffer = [] → cl1 = { cl with cursorStatus := CURSOR_STOPPED }) ∧
      Load_loop start count includeStart c.buffer 0 false 0 cl1 = { cl1 with buffer := msgs } ∧
      bs.flatten = msgs ∧ (msgs = [] → bs = []) ∧
      Registry.get c1.clients clientId
        = some { cl1 with buffer := msgs, ch := cl1.ch ++ bs } ∧
      (∀ other, other ≠ clientId →
        Registry.get c1.clients other = Registry.get c.clients other) ∧
      c1.buffer = c.buffer ∧ c1.currentlyConnected = c.currentlyConnected ∧
      cl1.cursorPosition = (match cl.buffer.getLast? with
        | some last => last.Id
        | none => cl.cursorPosition) := by
  obtain ⟨cl1, bs0, hpause, hbuf, hstat, hch, hflat, _, hsame, hcur⟩ :=
    PauseFollowing_spec size hsize c clientId cl hreg
  have hwait : cl1.waitForBufferDrain size = some cl1 := by
    unfold Client.waitForBufferDrain
    rw [if_neg (by rw [hbuf]; simp)]
  obtain ⟨msgs, hloop⟩ := Load_loop_frame start count includeStart c.buffer 0 false 0 cl1
  rw [hbuf, List.nil_append] at hloop
  obtain ⟨bs, hflush, hbsflat, _, _, hnil⟩ :=
    flushBuffer_spec size hsize { cl1 with buffer := msgs }
  refine ⟨{ c with
      clients := Registry.set (Registry.set c.clients clientId cl1) clientId
        ({ cl1 with buffer := msgs, ch := cl1.ch ++ bs }) },
    cl1, bs0, msgs, bs, ?_, hbuf, hstat, hch, hflat, hsame, hloop, hbsflat, hnil,
    Registry.get_set_same _ _ _, ?_, rfl, rfl, hcur⟩
  · unfold Clients.Load
    simp only [hpause, Registry.get_set_same, hwait, hloop, hflush]
  · intro other hne
    show Registry.get (Registry.set (Registry.set c.clients clientId cl1) clientId _) other = _
    rw [Registry.get_set_other _ _ _ _ hne, Registry.get_set_other _ _ _ _ hne]

end Logdy

namespace Logdy

open CursorStatus

/-! ## Historical load -/

/-- C11: on a registered subscriber with drained pending, `Load` with
`count >= 1` and a batch size of at least one returns; when
`1 <= start <= n` it enqueues, and sends in batches, exactly the log events at
the 1-based positions `start .. min (start + count - 1) n` if `includeStart`,
and `start + 1 .. min (start + count) n` if not, in log order; when
`start < 1` or `start > n` nothing is enqueued or sent. -/
theorem Load_slice (size : Nat) (hsize : 1 ≤ size) (c : Clients) (clientId : String)
    (cl : Client) (start count : Int) (includeStart : Bool)
    (hreg : Registry.get c.clients clientId = some cl) (hdrained : cl.buffer = [])
    (hcount : 1 ≤ count) :
    ∃ c1 cl1 bs, c.Load size clientId start count includeStart = some c1 ∧
      Registry.get c1.clients clientId = some cl1 ∧
      cl1.buffer =
        (if 1 ≤ start ∧ start ≤ (c.buffer.length : Int) then
          if includeStart then (c.buffer.drop (start.toNat - 1)).take count.toNat
          else (c.buffer.drop start.toNat).take count.toNat
        else []) ∧
      cl1.ch = cl.ch ++ bs ∧ bs.flatten = cl1.buffer ∧ (cl1.buffer = [] → bs = []) := by
  obtain ⟨c1, cl1, bs0, msgs, bs, hload, _, _, _, _, hsame, hloop, hflat, hnil, hget, _⟩ :=
    Load_spec size hsize c clientId start count includeStart cl hreg
  have hcl1 : cl1 = { cl with cursorStatus := CURSOR_STOPPED } := hsame hdrained
  have hmsgs : msgs =
      (if 1 ≤ start ∧ start ≤ (c.buffer.length : Int) then
        if includeStart then (c.buffer.drop (start.toNat - 1)).take count.toNat
        else (c.buffer.drop start.toNat).take count.toNat
      else []) := by
    by_cases hstart : 1 ≤ start
    · have hun := Load_loop_unseen start count includeStart hcount c.buffer 0 (start - 1).toNat
        cl1 (by push_cast; omega)
      rw [hloop] at hun
      have hbuf := congrArg Client.buffer hun
      simp only [hcl1, hdrained, List.nil_append] at hbuf
      rw [hbuf]
      by_cases hle : start ≤ (c.buffer.length : Int)
      · rw [if_pos (show 1 ≤ start ∧ start ≤ (c.buffer.length : Int) from ⟨hstart, hle⟩)]
        have h1 : (start - 1).toNat = start.toNat - 1 := by omega
        have h2 : (start - 1).toNat + 1 = start.toNat := by omega
        cases includeStart
        · simp only [Bool.false_eq_true, if_false, h2]
        · simp only [if_true, h1]
      · rw [if_neg (show ¬ (1 ≤ start ∧ start ≤ (c.buffer.length : Int)) from fun h => hle h.2)]
        have hdrop : ∀ k, (start - 1).toNat ≤ k → c.buffer.drop k = [] := fun k hk =>
          List.drop_of_length_le (by omega)
        cases includeStart
        · simp only [Bool.false_eq_true, if_false]
          rw [hdrop _ (Nat.le_succ _), List.take_nil]
        · simp only [if_true]
          rw [hdrop _ (le_refl _), List.take_nil]
    · have hnever := Load_loop_never start count includeStart c.buffer 0 cl1
        (by push_cast; omega)
      rw [hloop] at hnever
      have hbuf := congrArg Client.buffer hnever
      simp only [hcl1, hdrained] at hbuf
      rw [hbuf, if_neg (show ¬ (1 ≤ start ∧ start ≤ (c.buffer.length : Int)) from
        fun h => hstart h.1)]
  refine ⟨c1, _, bs, hload, hget, hmsgs, ?_, hflat, hnil⟩
  simp only [hcl1]

theorem Load_slice_witness :
    1 ≤ 2 ∧ Registry.get tenState.clients "a"
        = some { id := "a", ch := [], buffer := [],
                 cursorStatus := CURSOR_FOLLOWING, cursorPosition := "" } ∧
      (1 : Int) ≤ 3 ∧
      ∃ c1 cl1 bs, tenState.Load 2 "a" 5 3 true = some c1 ∧
        Registry.get c1.clients "a" = some cl1 ∧
        cl1.buffer = [mkMsg "5", mkMsg "6", mkMsg "7"] ∧
        cl1.ch = [] ++ bs ∧ bs.flatten = cl1.buffer ∧ (cl1.buffer = [] → bs = []) :=
  ⟨by decide, rfl, by decide,
    Load_slice 2 (by decide) tenState "a"
      { id := "a", ch := [], buffer := [],
        cursorStatus := CURSOR_FOLLOWING, cursorPosition := "" } 5 3 true rfl rfl (by decide)⟩

/-- C12 (evaluation of the code): client `a` has cursor `1` on the log
`1, 2, 3`.  `ResumeFollowing(a, true)` alone replays `2, 3`.  After
`Load(a, 1, 2, true)`, which sends `1, 2` and leaves them pending, one flush
tick sends `1, 2` again and moves the cursor to `2`; `ResumeFollowing(a, true)`
then replays only `3`. -/
theorem Load_then_tick_moves_replay_cursor :
    ((pausedState.ResumeFollowing FLUSH_BUFFER_SIZE "a" true).bind
        (fun c1 => Registry.get c1.clients "a")
      = some { id := "a", ch := [[mkMsg "1"], [mkMsg "2", mkMsg "3"]],
               buffer := [mkMsg "2", mkMsg "3"],
               cursorStatus := CURSOR_FOLLOWING, cursorPosition := "1" }) ∧
    ((((pausedState.Load FLUSH_BUFFER_SIZE "a" 1 2 true).bind
        (fun c1 => c1.tick FLUSH_BUFFER_SIZE "a")).bind
        (fun c2 => c2.ResumeFollowing FLUSH_BUFFER_SIZE "a" true)).bind
        (fun c3 => Registry.get c3.clients "a")
      = some { id := "a",
               ch := [[mkMsg "1"], [mkMsg "1", mkMsg "2"], [mkMsg "1", mkMsg "2"], [mkMsg "3"]],
               buffer := [mkMsg "3"],
               cursorStatus := CURSOR_FOLLOWING, cursorPosition := "2" }) := by
  decide

/-- C13: for a registered subscriber in any mode and every `start`, `count`
and `includeStart`, `Load` with a batch size of at least one returns and the
mode of the subscriber is then `Stopped`. -/
theorem Load_leaves_stopped (size : Nat) (hsize : 1 ≤ size) (c : Clients) (clientId : String)
    (cl : Client) (start count : Int) (includeStart : Bool)
    (hreg : Registry.get c.clients clientId = some cl) :
    ∃ c1 cl1, c.Load size clientId start count includeStart = some c1 ∧
      Registry.get c1.clients clientId = some cl1 ∧
      cl1.cursorStatus = CURSOR_STOPPED := by
  obtain ⟨c1, cl1, _, msgs, bs, hload, _, hstat, _, _, _, _, _, _, hget, _⟩ :=
    Load_spec size hsize c clientId start count includeStart cl hreg
  exact ⟨c1, _, hload, hget, hstat⟩

theorem Load_leaves_stopped_witness :
    1 ≤ 2 ∧ Registry.get tenState.clients "a"
        = some { id := "a", ch := [], buffer := [],
                 cursorStatus := CURSOR_FOLLOWING, cursorPosition := "" } ∧
      ∃ c1 cl1, tenState.Load 2 "a" 5 3 false = some c1 ∧
        Registry.get c1.clients "a" = some cl1 ∧
        cl1.cursorStatus = CURSOR_STOPPED :=
  ⟨by decide, rfl,
    Load_leaves_stopped 2 (by decide) tenState "a"
      { id := "a", ch := [], buffer := [],
        cursorStatus := CURSOR_FOLLOWING, cursorPosition := "" } 5 3 false rfl⟩

end Logdy

namespace Logdy

open CursorStatus

/-! ## The cursor -/

/-- C14 (evaluation of the code): client `a` has cursor `1` and an empty
pending buffer on the log `1, 2, 3`.  `Load(a, 2, 2, true)` hands the batch
`2, 3` to its channel and leaves the cursor at `1`; so does
`ResumeFollowing(a, true)`.  After either call the cursor is not the id of the
last event handed to the channel, which is `3`. -/
theorem flushBuffer_callers_leave_cursor_behind :
    (pausedState.Load FLUSH_BUFFER_SIZE "a" 2 2 true).bind
        (fun c1 => Registry.get c1.clients "a")
      = some { id := "a", ch := [[mkMsg "1"], [mkMsg "2", mkMsg "3"]],
               buffer := [mkMsg "2", mkMsg "3"],
               cursorStatus := CURSOR_STOPPED, cursorPosition := "1" } ∧
    (pausedState.ResumeFollowing FLUSH_BUFFER_SIZE "a" true).bind
        (fun c1 => Registry.get c1.clients "a")
      = some { id := "a", ch := [[mkMsg "1"], [mkMsg "2", mkMsg "3"]],
               buffer := [mkMsg "2", mkMsg "3"],
               cursorStatus := CURSOR_FOLLOWING, cursorPosition := "1" } ∧
    ("1" : String) ≠ (mkMsg "3").Id := by
  decide

/-- C15 (evaluation of the code): on the log `1, 2, 3` (distinct ids, at
positions 0, 1, 2) client `a` has cursor `3`.  `Load(a, 1, 2, true)` sends
`1, 2` and leaves them pending with the cursor still `3`; the next flush tick
sets the cursor to `2`: it moved from position 2 back to position 1. -/
theorem Load_then_tick_moves_cursor_backward :
    (deliveredState.buffer.map Message.Id).Nodup ∧
    (deliveredState.buffer.map Message.Id).indexOf "3" = 2 ∧
    (deliveredState.buffer.map Message.Id).indexOf "2" = 1 ∧
    ((deliveredState.Load FLUSH_BUFFER_SIZE "a" 1 2 true).bind
        (fun c1 => Registry.get c1.clients "a")).map Client.cursorPosition = some "3" ∧
    (((deliveredState.Load FLUSH_BUFFER_SIZE "a" 1 2 true).bind
        (fun c1 => c1.tick FLUSH_BUFFER_SIZE "a")).bind
        (fun c2 => Registry.get c2.clients "a")).map Client.cursorPosition = some "2" := by
  decide

end Logdy

namespace Logdy

open CursorStatus

/-! ## `PeekLog`, unknown ids -/

theorem PeekLog_loop_nat (buffer : List Message) (idxs : List Nat) :
    ∀ msgs : List Message,
      PeekLog_loop buffer (idxs.map (fun (i : Nat) => (i : Int))) msgs
        = some (msgs ++ idxs.filterMap (fun i => buffer[i]?)) := by
  induction idxs with
  | nil => intro msgs; simp [PeekLog_loop]
  | cons i rest ih =>
    intro msgs
    simp only [List.map_cons, PeekLog_loop]
    by_cases hle : (buffer.length : Int) - 1 < (i : Int)
    · rw [if_pos hle, ih]
      have hnone : buffer[i]? = none := List.getElem?_eq_none (by omega)
      simp [List.filterMap_cons, hnone]
    · rw [if_neg hle, if_neg (by omega)]
      have hlt : i < buffer.length := by omega
      have hsome : buffer[i]? = some (buffer[i]) := List.getElem?_eq_getElem hlt
      simp only [Int.toNat_ofNat, hsome]
      rw [ih]
      simp [List.filterMap_cons, hsome]

/-- C16: for a list of non-negative indices, `PeekLog` returns, in the order
of the indices, the log events at those 0-based indices that are below the
log length and skips the others; the state (log and subscribers) is
unchanged. -/
theorem PeekLog_in_range (c : Clients) (idxs : List Nat) :
    c.PeekLog (idxs.map (fun (i : Nat) => (i : Int)))
      = some (c, idxs.filterMap (fun i => c.buffer[i]?)) := by
  unfold Clients.PeekLog
  rw [PeekLog_loop_nat]
  rfl

/-- C17 (evaluation of the code): on every state, `PeekLog` of the single
index `-1` does not return a result: the index passes the length check and
`c.buffer[-1]` is out of range. -/
theorem PeekLog_negative_index_fails (c : Clients) :
    c.PeekLog [-1] = none := by
  unfold Clients.PeekLog
  simp only [PeekLog_loop]
  rw [if_neg (by omega), if_pos (by decide)]
  rfl

/-- C18 (evaluation of the code): on a state with an empty registry, so that
every id is unknown, `Close` leaves the state as it is, and
`PauseFollowing`, `Load` and `ResumeFollowing` do not return. -/
theorem unknown_id_calls (size : Nat) (log : List Message) (id : String) (start count : Int)
    (includeStart sinceCursor : Bool) :
    ({ NewClients with buffer := log }).Close id = { NewClients with buffer := log } ∧
    ({ NewClients with buffer := log }).PauseFollowing size id = none ∧
    ({ NewClients with buffer := log }).Load size id start count includeStart = none ∧
    ({ NewClients with buffer := log }).ResumeFollowing size id sinceCursor = none :=
  ⟨rfl, rfl, rfl, rfl⟩

end Logdy

namespace Logdy

open CursorStatus

/-! ## `Join` and `Close`: the connected count -/

theorem Registry.get_eq_none_iff (r : Registry) (id : String) :
    Registry.get r id = none ↔ id ∉ r.map Prod.fst := by
  induction r with
  | nil => simp [Registry.get]
  | cons kv rest ih =>
    obtain ⟨k, v⟩ := kv
    by_cases hk : k = id
    · simp [Registry.get, hk]
    · simp only [Registry.get, if_neg hk, List.map_cons, List.mem_cons, not_or]
      rw [ih]
      exact ⟨fun h => ⟨fun h1 => hk h1.symm, h⟩, fun h => h.2⟩

theorem Registry.set_absent (r : Registry) (id : String) (cl : Client)
    (habs : Registry.get r id = none) :
    Registry.set r id cl = r ++ [(id, cl)] := by
  induction r with
  | nil => rfl
  | cons kv rest ih =>
    obtain ⟨k, v⟩ := kv
    by_cases hk : k = id
    · simp [Registry.get, hk] at habs
    · simp only [Registry.get, if_neg hk] at habs
      simp only [Registry.set, if_neg hk, ih habs, List.cons_append]

theorem Registry.get_delete_same (r : Registry) (id : String) :
    Registry.get (Registry.delete r id) id = none := by
  induction r with
  | nil => rfl
  | cons kv rest ih =>
    obtain ⟨k, v⟩ := kv
    by_cases hk : k = id
    · simp only [Registry.delete, if_pos hk]
      exact ih
    · simp only [Registry.delete, if_neg hk, Registry.get]
      exact ih

theorem Registry.get_delete_other (r : Registry) (id other : String) (hne : other ≠ id) :
    Registry.get (Registry.delete r id) other = Registry.get r other := by
  induction r with
  | nil => rfl
  | cons kv rest ih =>
    obtain ⟨k, v⟩ := kv
    by_cases hk : k = id
    · have hko : ¬ k = other := fun h => hne (h.symm.trans hk)
      simp only [Registry.delete, if_pos hk, Registry.get, if_neg hko]
      exact ih
    · simp only [Registry.delete, if_neg hk, Registry.get]
      rw [ih]

theorem Registry.delete_absent (r : Registry) (id : String)
    (habs : id ∉ r.map Prod.fst) : Registry.delete r id = r := by
  induction r with
  | nil => rfl
  | cons kv rest ih =>
    obtain ⟨k, v⟩ := kv
    simp only [List.map_cons, List.mem_cons, not_or] at habs
    have hk : ¬ k = id := fun h => habs.1 h.symm
    simp only [Registry.delete, if_neg hk, ih habs.2]

theorem Registry.delete_keys_sublist (r : Registry) (id : String) :
    List.Sublist ((Registry.delete r id).map Prod.fst) (r.map Prod.fst) := by
  induction r with
  | nil => exact List.Sublist.slnil
  | cons kv rest ih =>
    obtain ⟨k, v⟩ := kv
    by_cases hk : k = id
    · simp only [Registry.delete, if_pos hk, List.map_cons]
      exact List.Sublist.cons _ ih
    · simp only [Registry.delete, if_neg hk, List.map_cons]
      exact List.Sublist.cons₂ _ ih

theorem Registry.length_delete (r : Registry) (id : String)
    (hnodup : (r.map Prod.fst).Nodup) (hmem : id ∈ r.map Prod.fst) :
    (Registry.delete r id).length + 1 = r.length := by
  induction r with
  | nil => simp at hmem
  | cons kv rest ih =>
    obtain ⟨k, v⟩ := kv
    rw [List.map_cons, List.nodup_cons] at hnodup
    by_cases hk : k = id
    · subst hk
      simp only [Registry.delete, if_true, List.length_cons]
      rw [Registry.delete_absent rest k hnodup.1]
    · simp only [List.map_cons, List.mem_cons] at hmem
      have hmem1 : id ∈ rest.map Prod.fst := by
        rcases hmem with h | h
        · exact absurd h.symm hk
        · exact h
      simp only [Registry.delete, if_neg hk, List.length_cons]
      rw [ih hnodup.2 hmem1]

/-- The registry has one entry per key and the connected count is the number
of its entries: kept by `Join` with an id that is not registered and by
`Close`. -/
theorem admin_invariant (c : Clients) (op : AdminOp)
    (hnodup : (c.clients.map Prod.fst).Nodup)
    (hcount : c.currentlyConnected = (c.clients.length : Int))
    (hfresh : ∀ newId tailLen, op = AdminOp.join newId tailLen →
      Registry.get c.clients newId = none) :
    ∃ c1, c.admin op = some c1 ∧ (c1.clients.map Prod.fst).Nodup ∧
      c1.currentlyConnected = (c1.clients.length : Int) := by
  cases op with
  | join newId tailLen =>
    have habs := hfresh newId tailLen rfl
    refine ⟨{ c with
        clients := Registry.set c.clients newId
          { id := newId, ch := [], buffer := c.buffer.drop (c.buffer.length - tailLen),
            cursorStatus := CURSOR_FOLLOWING, cursorPosition := "" }
        currentlyConnected := c.currentlyConnected + 1 }, ?_, ?_, ?_⟩
    · simp only [Clients.admin, Join_spec, Option.map_some']
    · show ((Registry.set c.clients newId _).map Prod.fst).Nodup
      rw [Registry.set_absent _ _ _ habs, List.map_append]
      refine List.Nodup.append hnodup (List.nodup_singleton _) ?_
      intro k hk hk1
      simp only [List.map_cons, List.map_nil, List.mem_singleton] at hk1
      subst hk1
      exact (Registry.get_eq_none_iff _ _).mp habs hk
    · show c.currentlyConnected + 1 = ((Registry.set c.clients newId _).length : Int)
      rw [Registry.set_absent _ _ _ habs, hcount]
      simp
  | close id =>
    refine ⟨c.Close id, rfl, ?_, ?_⟩
    · unfold Clients.Close
      cases hget : Registry.get c.clients id with
      | none => exact hnodup
      | some cl => exact List.Nodup.sublist (Registry.delete_keys_sublist _ _) hnodup
    · unfold Clients.Close
      cases hget : Registry.get c.clients id with
      | none => exact hcount
      | some cl =>
        have hmem : id ∈ c.clients.map Prod.fst := by
          by_contra hno
          rw [(Registry.get_eq_none_iff _ _).mpr hno] at hget
          cases hget
        have hlen := Registry.length_delete c.clients id hnodup hmem
        show c.currentlyConnected - 1 = ((Registry.delete c.clients id).length : Int)
        rw [hcount]
        omega

theorem runAdmin_invariant (ops : List AdminOp) :
    ∀ c : Clients, (c.clients.map Prod.fst).Nodup →
      c.currentlyConnected = (c.clients.length : Int) →
      freshJoins c ops = true →
      ∃ c1, c.runAdmin ops = some c1 ∧ (c1.clients.map Prod.fst).Nodup ∧
        c1.currentlyConnected = (c1.clients.length : Int) := by
  induction ops with
  | nil => intro c hnodup hcount _; exact ⟨c, rfl, hnodup, hcount⟩
  | cons op rest ih =>
    intro c hnodup hcount hfresh
    simp only [freshJoins, Bool.and_eq_true] at hfresh
    obtain ⟨c1, hadmin, hnodup1, hcount1⟩ := admin_invariant c op hnodup hcount (by
      intro newId tailLen hop
      subst hop
      simpa using hfresh.1)
    have hrest : freshJoins c1 rest = true := by
      have h2 := hfresh.2
      rw [hadmin] at h2
      exact h2
    obtain ⟨c2, hrun, hnodup2, hcount2⟩ := ih c1 hnodup1 hcount1 hrest
    exact ⟨c2, by simp only [Clients.runAdmin, hadmin, hrun], hnodup2, hcount2⟩

/-- C20: after every sequence of `Join` and `Close` calls from `NewClients`
in which each `Join` draws an id that is not registered, the run returns,
`currentlyConnected` is the number of entries of the registry (so it is not
negative), and `Close` of a registered id removes that entry, lowers both
counts by one and leaves every other registered subscriber as it was. -/
theorem Join_Close_connected_count (ops : List AdminOp)
    (hfresh : freshJoins NewClients ops = true) :
    ∃ c, NewClients.runAdmin ops = some c ∧
      c.currentlyConnected = (c.clients.length : Int) ∧ 0 ≤ c.currentlyConnected ∧
      ∀ id cl, Registry.get c.clients id = some cl →
        Registry.get (c.Close id).clients id = none ∧
        (c.Close id).clients.length + 1 = c.clients.length ∧
        (c.Close id).currentlyConnected = c.currentlyConnected - 1 ∧
        (∀ other, other ≠ id →
          Registry.get (c.Close id).clients other = Registry.get c.clients other) ∧
        (c.Close id).buffer = c.buffer := by
  obtain ⟨c, hrun, hnodup, hcount⟩ := runAdmin_invariant ops NewClients
    (by simp [NewClients]) (by simp [NewClients]) hfresh
  refine ⟨c, hrun, hcount, by rw [hcount]; exact Int.natCast_nonneg _, ?_⟩
  intro id cl hget
  have hmem : id ∈ c.clients.map Prod.fst := by
    by_contra hno
    rw [(Registry.get_eq_none_iff _ _).mpr hno] at hget
    cases hget
  have hclose : c.Close id = { c with clients := Registry.delete c.clients id
                                      currentlyConnected := c.currentlyConnected - 1 } := by
    unfold Clients.Close
    rw [hget]
  rw [hclose]
  exact ⟨Registry.get_delete_same _ _, Registry.length_delete _ _ hnodup hmem, rfl,
    fun other hne => Registry.get_delete_other _ _ _ hne, rfl⟩

theorem Join_Close_connected_count_witness :
    freshJoins NewClients [AdminOp.join "a" 0, AdminOp.join "b" 2, AdminOp.close "a",
        AdminOp.close "z", AdminOp.join "a" 1] = true ∧
    ∃ c, NewClients.runAdmin [AdminOp.join "a" 0, AdminOp.join "b" 2, AdminOp.close "a",
        AdminOp.close "z", AdminOp.join "a" 1] = some c ∧
      c.currentlyConnected = (c.clients.length : Int) ∧ 0 ≤ c.currentlyConnected ∧
      ∀ id cl, Registry.get c.clients id = some cl →
        Registry.get (c.Close id).clients id = none ∧
        (c.Close id).clients.length + 1 = c.clients.length ∧
        (c.Close id).currentlyConnected = c.currentlyConnected - 1 ∧
        (∀ other, other ≠ id →
          Registry.get (c.Close id).clients other = Registry.get c.clients other) ∧
        (c.Close id).buffer = c.buffer :=
  ⟨by decide, Join_Close_connected_count _ (by decide)⟩

end Logdy

namespace Logdy

open CursorStatus

/-! ## The mutex `bufferOpMu`: lemmas and evaluation -/

theorem LockedClient.handleMessage_client (lc : LockedClient) (m : Message) (force : Bool) :
    (lc.handleMessage m force).client = lc.client.handleMessage m force := by
  unfold LockedClient.handleMessage Client.handleMessage
  split <;> rfl

/-- Without the mutex and the ghost record, the flush-loop iteration with the
mutex is `Client.startBufferFlushLoop_tick`. -/
theorem LockedClient.startBufferFlushLoop_tick_client (size : Nat) (lc : LockedClient) :
    (lc.startBufferFlushLoop_tick size).map LockedClient.client
      = lc.client.startBufferFlushLoop_tick size := by
  unfold LockedClient.startBufferFlushLoop_tick Client.startBufferFlushLoop_tick
  by_cases hlen : lc.client.buffer.length = 0
  · rw [if_pos hlen, if_pos hlen]
    rfl
  · rw [if_neg hlen, if_neg hlen]
    cases lc.client.buffer.getLast? with
    | none => rfl
    | some last =>
      simp only [LockedClient.flushBuffer, LockedClient.write, LockedClient.Lock]
      cases ({ lc.client with cursorPosition := last.Id } : Client).flushBuffer size with
      | none => rfl
      | some c3 => rfl

/-- Without the mutex and the ghost record, `PauseFollowing` with the mutex is
the status write followed by `Client.waitForBufferDrain`. -/
theorem LockedClient.PauseFollowing_client (size : Nat) (lc : LockedClient) :
    (lc.PauseFollowing size).map LockedClient.client
      = ({ lc.client with cursorStatus := CURSOR_STOPPED } : Client).waitForBufferDrain size := by
  unfold LockedClient.PauseFollowing LockedClient.waitForBufferDrain Client.waitForBufferDrain
  have htick := LockedClient.startBufferFlushLoop_tick_client size
    (lc.write Field.cursorStatus (fun c => { c with cursorStatus := CURSOR_STOPPED }))
  simp only [LockedClient.write] at htick ⊢
  split
  · rw [← htick]
    cases LockedClient.startBufferFlushLoop_tick size _ with
    | none => rfl
    | some lc1 =>
      simp only [Option.map_some']
      split <;> rfl
  · rfl

theorem LockedClient.foldl_handleMessage_client (tail : List Message) :
    ∀ lc : LockedClient,
      (tail.foldl (fun acc msg => acc.handleMessage msg true) lc).client
        = tail.foldl (fun acc msg => acc.handleMessage msg true) lc.client := by
  induction tail with
  | nil => intro lc; rfl
  | cons m rest ih =>
    intro lc
    rw [List.foldl_cons, List.foldl_cons, ih, LockedClient.handleMessage_client]

/-- Without the mutex and the ghost record, `Join` with the mutex builds the
client that `Clients.Join` registers. -/
theorem LockedClient.Join_client (newId : String) (tail : List Message) :
    (LockedClient.Join newId tail).client
      = { tail.foldl (fun acc msg => acc.handleMessage msg true) (NewClient newId) with
          cursorStatus := CURSOR_FOLLOWING } := by
  unfold LockedClient.Join
  simp only [LockedClient.write, LockedClient.foldl_handleMessage_client]

/-- C19 (evaluation of the code): started with the mutex free and no
unlocked write recorded.  On a client with three pending messages the
flush-loop iteration writes `cursorPosition` before it takes the mutex (its
`clearBuffer` is under the mutex).  `PauseFollowing` writes `cursorStatus`
without the mutex, on a client with pending messages (where the flush loop it
waits for adds its unlocked write of `cursorPosition`) and on a drained one.
`Join` with a tail of one message writes `buffer` and `cursorStatus` without
the mutex.  The fan-out of `Start` and `ResumeFollowing` make all their writes
with the mutex held. -/
theorem writes_without_bufferOpMu :
    (({ client := sampleClient, bufferOpMu := false, unlockedWrites := [] } :
        LockedClient).startBufferFlushLoop_tick FLUSH_BUFFER_SIZE).map
        LockedClient.unlockedWrites = some [Field.cursorPosition] ∧
    (({ client := sampleClient, bufferOpMu := false, unlockedWrites := [] } :
        LockedClient).PauseFollowing FLUSH_BUFFER_SIZE).map
        LockedClient.unlockedWrites = some [Field.cursorStatus, Field.cursorPosition] ∧
    (({ client := { sampleClient with buffer := [] }, bufferOpMu := false,
        unlockedWrites := [] } : LockedClient).PauseFollowing FLUSH_BUFFER_SIZE).map
        LockedClient.unlockedWrites = some [Field.cursorStatus] ∧
    (LockedClient.Join "a" [mkMsg "1"]).unlockedWrites
      = [Field.buffer, Field.cursorStatus] ∧
    (({ client := sampleClient, bufferOpMu := false, unlockedWrites := [] } :
        LockedClient).Start_fanout (mkMsg "4")).unlockedWrites = [] ∧
    (({ client := { sampleClient with buffer := [], cursorPosition := "1" },
        bufferOpMu := false, unlockedWrites := [] } :
        LockedClient).ResumeFollowing FLUSH_BUFFER_SIZE
          [mkMsg "1", mkMsg "2", mkMsg "3"] true).map
        LockedClient.unlockedWrites = some [] := by
  decide

end Logdy
